import Mathlib

/-!
# Verification of the displacement-aware line-feature intersection engine

Shallow embedding of `SolidLineMesh` (the displacement-aware raycasting of
extruded solid-line meshes) together with its helper `computeBoundingSphere`.

Modelling conventions:
* JavaScript floating-point numbers are modelled by exact rationals (`ℚ`).
* The only square roots the source takes feed directly into comparisons or
  into squared quantities.  Spheres therefore store `radiusSq` (the source
  stores `radius = Math.sqrt radiusSq`), and every comparison the source
  makes against a square root is embedded by an exact rational decision
  procedure (`sqrtLt`, `sqrtGt`, `leMulSqrt`) whose agreement with the real
  `Real.sqrt` comparison is proved (`sqrtLt_iff_real`, `sqrtGt_iff_real`,
  `leMulSqrt_iff_real`).
* Mutation of `this.geometry`, `this.userData` and `geometry.userData.debug`
  is modelled by explicit state in the result structures.
-/

/-- A 3-component vector (`THREE.Vector3`). -/
structure Vec3 where
  x : ℚ
  y : ℚ
  z : ℚ
deriving DecidableEq, Repr

namespace Vec3

instance : Zero Vec3 := ⟨⟨0, 0, 0⟩⟩

instance : Add Vec3 := ⟨fun u v => ⟨u.x + v.x, u.y + v.y, u.z + v.z⟩⟩

instance : Sub Vec3 := ⟨fun u v => ⟨u.x - v.x, u.y - v.y, u.z - v.z⟩⟩

instance : SMul ℚ Vec3 := ⟨fun a v => ⟨a * v.x, a * v.y, a * v.z⟩⟩

theorem zero_def : (0 : Vec3) = ⟨0, 0, 0⟩ := rfl

theorem add_def (u v : Vec3) : u + v = ⟨u.x + v.x, u.y + v.y, u.z + v.z⟩ := rfl

theorem sub_def (u v : Vec3) : u - v = ⟨u.x - v.x, u.y - v.y, u.z - v.z⟩ := rfl

theorem smul_def (a : ℚ) (v : Vec3) : a • v = ⟨a * v.x, a * v.y, a * v.z⟩ := rfl

/-- Dot product (`THREE.Vector3.dot`). -/
def dot (u v : Vec3) : ℚ := u.x * v.x + u.y * v.y + u.z * v.z

/-- Cross product (`THREE.Vector3.cross`). -/
def cross (u v : Vec3) : Vec3 :=
  ⟨u.y * v.z - u.z * v.y, u.z * v.x - u.x * v.z, u.x * v.y - u.y * v.x⟩

/-- Squared length (`THREE.Vector3.lengthSq`). -/
def normSq (v : Vec3) : ℚ := dot v v

/-- Squared distance between two points (`THREE.Vector3.distanceToSquared`). -/
def distSq (u v : Vec3) : ℚ := normSq (u - v)

/-- Componentwise minimum (`THREE.Vector3.min`). -/
def vmin (u v : Vec3) : Vec3 := ⟨min u.x v.x, min u.y v.y, min u.z v.z⟩

/-- Componentwise maximum (`THREE.Vector3.max`). -/
def vmax (u v : Vec3) : Vec3 := ⟨max u.x v.x, max u.y v.y, max u.z v.z⟩

theorem distSq_nonneg (u v : Vec3) : 0 ≤ distSq u v := by
  have hx := sq_nonneg (u.x - v.x)
  have hy := sq_nonneg (u.y - v.y)
  have hz := sq_nonneg (u.z - v.z)
  simp only [distSq, normSq, dot, sub_def] at *
  nlinarith

theorem normSq_nonneg (v : Vec3) : 0 ≤ normSq v := by
  have h := distSq_nonneg v 0
  simpa [distSq, zero_def, sub_def, normSq] using h

theorem distSq_self (v : Vec3) : distSq v v = 0 := by
  simp only [distSq, normSq, dot, sub_def]
  ring

end Vec3

open Vec3

/-- An axis-aligned box (`THREE.Box3`); `none` is the empty box
(`min = +∞, max = -∞` in the source). -/
def Box3 : Type := Option (Vec3 × Vec3)

instance : DecidableEq Box3 := by unfold Box3; infer_instance

namespace Box3

/-- `THREE.Box3.makeEmpty`. -/
def emptyBox : Box3 := none

/-- `THREE.Box3.expandByPoint`. -/
def expandByPoint (b : Box3) (p : Vec3) : Box3 :=
  match b with
  | none => some (p, p)
  | some (mn, mx) => some (vmin mn p, vmax mx p)

/-- `THREE.Box3.translate`. -/
def translate (b : Box3) (d : Vec3) : Box3 :=
  match b with
  | none => none
  | some (mn, mx) => some (mn + d, mx + d)

/-- `THREE.Box3.union` (componentwise min of mins / max of maxes; the empty
box is the unit). -/
def union (b₁ b₂ : Box3) : Box3 :=
  match b₁, b₂ with
  | none, b => b
  | b, none => b
  | some (mn₁, mx₁), some (mn₂, mx₂) => some (vmin mn₁ mn₂, vmax mx₁ mx₂)

/-- `THREE.Box3.getCenter` (the empty box yields the origin). -/
def center (b : Box3) : Vec3 :=
  match b with
  | none => 0
  | some (mn, mx) => ((1 : ℚ) / 2) • (mn + mx)

/-- `THREE.Box3.getSize` (the empty box yields the zero vector). -/
def size (b : Box3) : Vec3 :=
  match b with
  | none => 0
  | some (mn, mx) => mx - mn

/-- Membership of a point in a box. -/
def containsPoint (b : Box3) (p : Vec3) : Prop :=
  match b with
  | none => False
  | some (mn, mx) =>
      mn.x ≤ p.x ∧ p.x ≤ mx.x ∧ mn.y ≤ p.y ∧ p.y ≤ mx.y ∧ mn.z ≤ p.z ∧ p.z ≤ mx.z

theorem containsPoint_expand_self (b : Box3) (p : Vec3) :
    containsPoint (expandByPoint b p) p := by
  cases b with
  | none => simp [expandByPoint, containsPoint]
  | some mm =>
      obtain ⟨mn, mx⟩ := mm
      simp only [expandByPoint, containsPoint, vmin, vmax]
      refine ⟨min_le_right _ _, le_max_right _ _, min_le_right _ _, le_max_right _ _,
        min_le_right _ _, le_max_right _ _⟩

theorem containsPoint_expand_mono (b : Box3) (p q : Vec3)
    (h : containsPoint b q) : containsPoint (expandByPoint b p) q := by
  cases b with
  | none => simp [containsPoint] at h
  | some mm =>
      obtain ⟨mn, mx⟩ := mm
      simp only [containsPoint] at h
      simp only [expandByPoint, containsPoint, vmin, vmax]
      obtain ⟨h1, h2, h3, h4, h5, h6⟩ := h
      exact ⟨le_trans (min_le_left _ _) h1, le_trans h2 (le_max_left _ _),
        le_trans (min_le_left _ _) h3, le_trans h4 (le_max_left _ _),
        le_trans (min_le_left _ _) h5, le_trans h6 (le_max_left _ _)⟩

theorem containsPoint_translate (b : Box3) (d p : Vec3)
    (h : containsPoint b p) : containsPoint (translate b d) (p + d) := by
  cases b with
  | none => simp [containsPoint] at h
  | some mm =>
      obtain ⟨mn, mx⟩ := mm
      simp only [containsPoint] at h
      simp only [translate, containsPoint, add_def]
      obtain ⟨h1, h2, h3, h4, h5, h6⟩ := h
      refine ⟨by linarith, by linarith, by linarith, by linarith, by linarith, by linarith⟩

theorem containsPoint_union_left (b₁ b₂ : Box3) (p : Vec3)
    (h : containsPoint b₁ p) : containsPoint (union b₁ b₂) p := by
  cases b₁ with
  | none => simp [containsPoint] at h
  | some mm₁ =>
      obtain ⟨mn₁, mx₁⟩ := mm₁
      cases b₂ with
      | none => exact h
      | some mm₂ =>
          obtain ⟨mn₂, mx₂⟩ := mm₂
          simp only [containsPoint] at h
          simp only [union, containsPoint, vmin, vmax]
          obtain ⟨h1, h2, h3, h4, h5, h6⟩ := h
          exact ⟨le_trans (min_le_left _ _) h1, le_trans h2 (le_max_left _ _),
            le_trans (min_le_left _ _) h3, le_trans h4 (le_max_left _ _),
            le_trans (min_le_left _ _) h5, le_trans h6 (le_max_left _ _)⟩

theorem containsPoint_union_right (b₁ b₂ : Box3) (p : Vec3)
    (h : containsPoint b₂ p) : containsPoint (union b₁ b₂) p := by
  cases b₂ with
  | none => simp [containsPoint] at h
  | some mm₂ =>
      obtain ⟨mn₂, mx₂⟩ := mm₂
      cases b₁ with
      | none => exact h
      | some mm₁ =>
          obtain ⟨mn₁, mx₁⟩ := mm₁
          simp only [containsPoint] at h
          simp only [union, containsPoint, vmin, vmax]
          obtain ⟨h1, h2, h3, h4, h5, h6⟩ := h
          exact ⟨le_trans (min_le_right _ _) h1, le_trans h2 (le_max_right _ _),
            le_trans (min_le_right _ _) h3, le_trans h4 (le_max_right _ _),
            le_trans (min_le_right _ _) h5, le_trans h6 (le_max_right _ _)⟩

/-- Any point of a box is within the box's circumscribed sphere: its squared
distance to the box center is at most `‖size‖² / 4` (the square of the radius
`‖size‖ / 2` that `THREE.Box3.getBoundingSphere` assigns). -/
theorem distSq_center_le_of_containsPoint (b : Box3) (p : Vec3)
    (h : containsPoint b p) : distSq (center b) p ≤ normSq (size b) / 4 := by
  cases b with
  | none => simp [containsPoint] at h
  | some mm =>
      obtain ⟨mn, mx⟩ := mm
      simp only [containsPoint] at h
      obtain ⟨h1, h2, h3, h4, h5, h6⟩ := h
      simp only [center, size, distSq, normSq, dot, sub_def, add_def, smul_def]
      nlinarith [sq_nonneg (mx.x - mn.x), sq_nonneg (mx.y - mn.y), sq_nonneg (mx.z - mn.z)]

end Box3

/-- A sphere; the source (`THREE.Sphere`) stores `radius`, the embedding
stores `radiusSq = radius ^ 2` (every use of the radius in the source is
either squared or compared against a quantity we compare in squared form). -/
structure Sphere where
  center : Vec3
  radiusSq : ℚ
deriving DecidableEq, Repr

/-- Displacement value range (`DisplacementRange` of `DisplacedBufferGeometry`):
a pair of scalar displacement magnitudes along the vertex normal. -/
structure DisplacementRange where
  min : ℚ
  max : ℚ
deriving DecidableEq, Repr

/-- Index positions visited by the source loops
`for (let i = beginIdx; i < endIdx; i += 6)` (stride 6: two triangles per
segment). -/
def strideIdxs (beginIdx endIdx : ℕ) : List ℕ :=
  (List.range ((endIdx - beginIdx + 5) / 6)).map (fun k => beginIdx + 6 * k)

/-- The axis-aligned box accumulated over the sampled spine vertices
(`tmpBox1` in `computeBoundingSphere`): one vertex (`indices[i]`) per
6-index segment. -/
def sampledBox (position : ℕ → Vec3) (indices : List ℕ) (beginIdx endIdx : ℕ) : Box3 :=
  (strideIdxs beginIdx endIdx).foldl
    (fun b i => Box3.expandByPoint b (position (indices.getD i 0))) Box3.emptyBox

/-- `computeBoundingSphere` from the source.

* Without a displacement range: the center is the sampled box's center and
  `radiusSq` is the maximum squared distance from that center to a sampled
  vertex (the source sets `radius = Math.sqrt maxRadiusSq`).
* With a displacement range: the box is translated by `normal * range.min`
  and (a second copy) by `normal * range.max`, the two copies are unioned
  and the union box's bounding sphere is returned
  (`THREE.Box3.getBoundingSphere`: center = box center,
  radius = `‖size‖ / 2`, hence `radiusSq = ‖size‖² / 4`). -/
def computeBoundingSphere (position : ℕ → Vec3) (indices : List ℕ)
    (beginIdx endIdx : ℕ) (normal : Vec3)
    (displacementRange : Option DisplacementRange) : Sphere :=
  let box1 := sampledBox position indices beginIdx endIdx
  match displacementRange with
  | some r =>
      let box2 := Box3.union (Box3.translate box1 (r.min • normal))
        (Box3.translate box1 (r.max • normal))
      { center := Box3.center box2, radiusSq := normSq (Box3.size box2) / 4 }
  | none =>
      let c := Box3.center box1
      let maxRadiusSq := (strideIdxs beginIdx endIdx).foldl
        (fun m i => max m (distSq c (position (indices.getD i 0)))) 0
      { center := c, radiusSq := maxRadiusSq }

/-- Decides `Real.sqrt d2 < a` for rationals with `0 ≤ d2`, by squaring.
Used to embed the source comparison `distance < raycaster.near` where
`distance = Math.sqrt d2`. -/
def sqrtLt (d2 a : ℚ) : Bool :=
  if a ≤ 0 then false else decide (d2 < a * a)

/-- Decides `a < Real.sqrt d2` for rationals with `0 ≤ d2`, by squaring.
Used to embed the source comparison `distance > raycaster.far`. -/
def sqrtGt (d2 a : ℚ) : Bool :=
  if a < 0 then true else decide (a * a < d2)

/-- Decides `L ≤ b * Real.sqrt S` for rationals with `0 ≤ S`, by squaring.
Used to embed the sphere pre-rejection test, whose inflated world radius is
`Math.sqrt S + threshold`. -/
def leMulSqrt (L b S : ℚ) : Bool :=
  if 0 ≤ b then (if L ≤ 0 then true else decide (L * L ≤ b * b * S))
  else (if 0 < L then false else decide (b * b * S ≤ L * L))

theorem sqrtLt_iff_real (d2 a : ℚ) :
    sqrtLt d2 a = true ↔ Real.sqrt (d2 : ℝ) < (a : ℝ) := by
  unfold sqrtLt
  split
  · rename_i ha
    simp only [Bool.false_eq_true, false_iff, not_lt]
    calc (a : ℝ) ≤ 0 := by exact_mod_cast ha
    _ ≤ Real.sqrt (d2 : ℝ) := Real.sqrt_nonneg _
  · rename_i ha
    push_neg at ha
    have ha' : (0 : ℝ) < (a : ℝ) := by exact_mod_cast ha
    rw [decide_eq_true_eq]
    constructor
    · intro hlt
      have h2 : (d2 : ℝ) < (a : ℝ) ^ 2 := by
        rw [sq]; exact_mod_cast hlt
      exact (Real.sqrt_lt' ha').mpr h2
    · intro hlt
      have h2 := (Real.sqrt_lt' ha').mp hlt
      rw [sq] at h2
      exact_mod_cast h2

theorem sqrtGt_iff_real (d2 a : ℚ) :
    sqrtGt d2 a = true ↔ (a : ℝ) < Real.sqrt (d2 : ℝ) := by
  unfold sqrtGt
  split
  · rename_i ha
    simp only [true_iff]
    have ha' : (a : ℝ) < 0 := by exact_mod_cast ha
    calc (a : ℝ) < 0 := ha'
    _ ≤ Real.sqrt (d2 : ℝ) := Real.sqrt_nonneg _
  · rename_i ha
    push_neg at ha
    have ha' : (0 : ℝ) ≤ (a : ℝ) := by exact_mod_cast ha
    rw [decide_eq_true_eq]
    constructor
    · intro hlt
      have h2 : (a : ℝ) ^ 2 < (d2 : ℝ) := by
        rw [sq]; exact_mod_cast hlt
      exact (Real.lt_sqrt ha').mpr h2
    · intro hlt
      have h2 := (Real.lt_sqrt ha').mp hlt
      rw [sq] at h2
      exact_mod_cast h2

theorem leMulSqrt_iff_real (L b S : ℚ) (hS : 0 ≤ S) :
    leMulSqrt L b S = true ↔ (L : ℝ) ≤ (b : ℝ) * Real.sqrt (S : ℝ) := by
  have hS' : (0 : ℝ) ≤ (S : ℝ) := by exact_mod_cast hS
  have hsq : Real.sqrt (S : ℝ) ^ 2 = (S : ℝ) := Real.sq_sqrt hS'
  have hsn : 0 ≤ Real.sqrt (S : ℝ) := Real.sqrt_nonneg _
  unfold leMulSqrt
  split
  · rename_i hb
    have hb' : (0 : ℝ) ≤ (b : ℝ) := by exact_mod_cast hb
    split
    · rename_i hL
      have hL' : (L : ℝ) ≤ 0 := by exact_mod_cast hL
      simp only [true_iff]
      calc (L : ℝ) ≤ 0 := hL'
      _ ≤ (b : ℝ) * Real.sqrt (S : ℝ) := by positivity
    · rename_i hL
      push_neg at hL
      have hL' : (0 : ℝ) < (L : ℝ) := by exact_mod_cast hL
      rw [decide_eq_true_eq]
      constructor
      · intro hle
        have hle' : (L : ℝ) * (L : ℝ) ≤ (b : ℝ) * (b : ℝ) * (S : ℝ) := by exact_mod_cast hle
        nlinarith [mul_nonneg hb' hsn]
      · intro hle
        have : (L : ℝ) * (L : ℝ) ≤ (b : ℝ) * (b : ℝ) * (S : ℝ) := by nlinarith
        exact_mod_cast this
  · rename_i hb
    push_neg at hb
    have hb' : (b : ℝ) < 0 := by exact_mod_cast hb
    split
    · rename_i hL
      have hL' : (0 : ℝ) < (L : ℝ) := by exact_mod_cast hL
      simp only [Bool.false_eq_true, false_iff, not_le]
      calc (b : ℝ) * Real.sqrt (S : ℝ) ≤ 0 := by
            exact mul_nonpos_of_nonpos_of_nonneg (le_of_lt hb') hsn
      _ < (L : ℝ) := hL'
    · rename_i hL
      push_neg at hL
      have hL' : (L : ℝ) ≤ 0 := by exact_mod_cast hL
      rw [decide_eq_true_eq]
      constructor
      · intro hle
        have hle' : (b : ℝ) * (b : ℝ) * (S : ℝ) ≤ (L : ℝ) * (L : ℝ) := by exact_mod_cast hle
        nlinarith [mul_nonpos_of_nonpos_of_nonneg (le_of_lt hb') hsn]
      · intro hle
        have : (b : ℝ) * (b : ℝ) * (S : ℝ) ≤ (L : ℝ) * (L : ℝ) := by
          nlinarith [mul_nonpos_of_nonpos_of_nonneg (le_of_lt hb') hsn]
        exact_mod_cast this

/-- An affine transform (`THREE.Matrix4` restricted to the affine matrices a
mesh's `matrixWorld` ranges over): three rows of the linear part plus a
translation. -/
structure Affine where
  r0 : Vec3
  r1 : Vec3
  r2 : Vec3
  t : Vec3
deriving DecidableEq, Repr

namespace Affine

/-- Apply to a point (`THREE.Vector3.applyMatrix4`; affine, so no
perspective divide). -/
def applyPoint (m : Affine) (p : Vec3) : Vec3 :=
  ⟨dot m.r0 p + m.t.x, dot m.r1 p + m.t.y, dot m.r2 p + m.t.z⟩

/-- Apply the linear part only (directions). -/
def applyLinear (m : Affine) (p : Vec3) : Vec3 :=
  ⟨dot m.r0 p, dot m.r1 p, dot m.r2 p⟩

/-- Column `j` of the linear part. -/
def col (m : Affine) (j : ℕ) : Vec3 :=
  match j with
  | 0 => ⟨m.r0.x, m.r1.x, m.r2.x⟩
  | 1 => ⟨m.r0.y, m.r1.y, m.r2.y⟩
  | _ => ⟨m.r0.z, m.r1.z, m.r2.z⟩

/-- Squared norm of column `j` (the squared axis scale factor). -/
def colNormSq (m : Affine) (j : ℕ) : ℚ := normSq (col m j)

/-- `THREE.Matrix4.getMaxScaleOnAxis` squared: the maximum of the three
squared column norms (the source takes the square root of this). -/
def maxScaleSq (m : Affine) : ℚ :=
  max (max (colNormSq m 0) (colNormSq m 1)) (colNormSq m 2)

/-- Determinant of the linear part. -/
def det (m : Affine) : ℚ := dot (col m 0) (cross (col m 1) (col m 2))

/-- The identity transform. -/
def identityAffine : Affine :=
  { r0 := ⟨1, 0, 0⟩, r1 := ⟨0, 1, 0⟩, r2 := ⟨0, 0, 1⟩, t := 0 }

/-- `THREE.Matrix4.getInverse` (`tmpInverseMatrix.getInverse(matrixWorld)`):
the affine inverse, or the identity when the matrix is singular (the source
warns and falls back to the identity for a zero determinant). -/
def inverse (m : Affine) : Affine :=
  let d := det m
  if d = 0 then identityAffine
  else
    let i0 := (1 / d) • cross (col m 1) (col m 2)
    let i1 := (1 / d) • cross (col m 2) (col m 0)
    let i2 := (1 / d) • cross (col m 0) (col m 1)
    let li : Affine := { r0 := i0, r1 := i1, r2 := i2, t := 0 }
    { r0 := i0, r1 := i1, r2 := i2, t := 0 - applyLinear li m.t }

theorem maxScaleSq_nonneg (m : Affine) : 0 ≤ maxScaleSq m :=
  le_trans (normSq_nonneg _) (le_max_right _ _)

end Affine

/-- A ray (`THREE.Ray`): origin and direction. -/
structure Ray where
  origin : Vec3
  dir : Vec3
deriving DecidableEq, Repr

namespace Ray

/-- `THREE.Ray.at`. -/
def rayAt (r : Ray) (t : ℚ) : Vec3 := r.origin + t • r.dir

/-- `THREE.Ray.applyMatrix4`, as used for
`tmpRay.copy(raycaster.ray).applyMatrix4(tmpInverseMatrix)`.

The source additionally normalizes the transformed direction
(`transformDirection` divides by the length, a square root).  Every
downstream use of the transformed ray (the plane intersection of
`featureIntersect`) is invariant under rescaling the direction by the
positive factor `1/length`, and for a zero-length direction the source's
`normalize` leaves the zero vector unchanged, so the embedding keeps the
unnormalized direction. -/
def applyAffine (r : Ray) (m : Affine) : Ray :=
  { origin := m.applyPoint r.origin, dir := m.applyLinear r.dir }

/-- `THREE.Ray.distanceSqToPoint`: squared distance from a point to the ray
(clamped to the origin for points behind it; the direction is assumed to be
normalized, which `THREE.Raycaster` guarantees for the world ray this is
called on). -/
def distanceSqToPoint (r : Ray) (p : Vec3) : ℚ :=
  let directionDistance := dot (p - r.origin) r.dir
  if directionDistance < 0 then distSq r.origin p
  else distSq (r.origin + directionDistance • r.dir) p

end Ray

/-- The raycasting query (`THREE.Raycaster`): world ray plus `[near, far]`
bounds. -/
structure Raycaster where
  ray : Ray
  near : ℚ
  far : ℚ
deriving DecidableEq, Repr

/-- One intersection record pushed into the caller's accumulator.  The source
object is `{ distance, point, index, face: null, faceIndex: undefined,
object: this }`; `face` and `faceIndex` are constants and `object` is always
the mesh under test, so the embedding keeps the three informative fields,
with `distanceSq = distance ^ 2` (the source distance is the square root
`raycaster.ray.origin.distanceTo(point)`). -/
structure IntersectionRecord where
  distanceSq : ℚ
  point : Vec3
  index : ℕ
deriving DecidableEq, Repr

/-- A displacement source: `material.displacementMap` (a
`THREE.DataTexture`) abstracted, as in spec section 4.1, to the scalar field
it defines over texture coordinates. -/
def DMap : Type := (ℚ × ℚ) → ℚ

/-- An indexed buffer geometry (`THREE.BufferGeometry`) with the vertex
attributes the engine reads: `position`, `normal`, `uv`, `bitangent`, plus
the optional index buffer.  Attributes are total maps from vertex index to
value; the index buffer is `none` when `geometry.index === null`. -/
structure BufferGeom where
  position : ℕ → Vec3
  normal : ℕ → Vec3
  uv : ℕ → ℚ × ℚ
  bitangent : ℕ → Vec3
  index : Option (List ℕ)

/-- Modelled from the spec: `DisplacedBufferGeometry` /
`DisplacedBufferAttribute` are imported by the source file but their code is
not part of the excerpt.  Spec sections 4.1-4.2: the displaced view exposes
`displacedPosition(i) = basePosition(i) + baseNormal(i) * sample(source,
baseUV(i))`, while the index buffer and the remaining attributes are
transparent pass-through references to the base geometry. -/
def displacedGeom (g : BufferGeom) (dmap : DMap) : BufferGeom :=
  { g with position := fun i => g.position i + (dmap (g.uv i)) • (g.normal i) }

/-- The mesh's stored geometry (`this.geometry` as assigned by the
constructor): either a `THREE.BufferGeometry` or some other
`THREE.Geometry` (`nonBuffer`), which the `instanceof` checks reject. -/
inductive StoredGeom
  | buffer (g : BufferGeom)
  | nonBuffer

/-- Which geometry object is currently referenced by `this.geometry`:
the stored one, or the displaced view `this.m_displacedGeometry` (wrapping
the stored geometry with a displacement map and range) that `raycast`
temporarily substitutes. -/
inductive GeomRef
  | stored
  | displacedView (dmap : DMap) (range : DisplacementRange)

/-- `this.userData.feature`: the optional per-mesh feature metadata bag with
its optional `starts` and `boundingVolumes` lists. -/
structure FeatureData where
  starts : Option (List ℕ)
  boundingVolumes : Option (List Sphere)

/-- The `SolidLineMesh` state read and written by `raycast`:

* `geometry`: the stored geometry (`this.geometry` before any substitution);
* `materialDisplacement`: `some dmap` iff `hasDisplacementFeature(material)`
  holds and `material.displacementMap` is a `THREE.DataTexture` (the first
  material is used when `this.material` is an array);
* `lineWidth`, `outlineWidth`: the `SolidLineMaterial` widths;
* `scale`: `this.scale` (the object's local scale property);
* `matrixWorld`: `this.matrixWorld`;
* `displacementRange`: the value `this.m_getDisplacementRange()` returns
  (invoked once per displaced raycast);
* `feature`: `this.userData.feature`. -/
structure Mesh where
  geometry : StoredGeom
  materialDisplacement : Option DMap
  lineWidth : ℚ
  outlineWidth : ℚ
  scale : Vec3
  matrixWorld : Affine
  displacementRange : DisplacementRange
  feature : Option FeatureData

namespace Mesh

/-- `threshold = solidLineMaterial.lineWidth + solidLineMaterial.outlineWidth`. -/
def threshold (m : Mesh) : ℚ := m.lineWidth + m.outlineWidth

/-- `localThreshold = threshold / ((this.scale.x + this.scale.y +
this.scale.z) / 3)`. -/
def localThreshold (m : Mesh) : ℚ :=
  m.threshold / ((m.scale.x + m.scale.y + m.scale.z) / 3)

/-- `localThresholdSq = localThreshold * localThreshold`. -/
def localThresholdSq (m : Mesh) : ℚ := m.localThreshold * m.localThreshold

/-- The buffer geometry the active geometry reference resolves to
(`none` when `this.geometry` is not a `THREE.BufferGeometry`). -/
def activeGeom (m : Mesh) (a : GeomRef) : Option BufferGeom :=
  match m.geometry, a with
  | .buffer g, .stored => some g
  | .buffer g, .displacedView dmap _ => some (displacedGeom g dmap)
  | .nonBuffer, _ => none

end Mesh

/-- `THREE.Plane.setFromCoplanarPoints(a, b, c)` followed by
`tmpRay.intersectPlane(plane, interPlane)`.

The source normalizes the plane normal `(c - b) × (a - b)`; the intersection
parameter `t = -(origin·n̂ + constant) / (n̂·direction)` and the
degenerate-denominator tests are invariant under the positive rescaling that
normalization applies, and for a zero cross product the source's `normalize`
keeps the zero normal, which the `denominator = 0` branch below reproduces
(`distanceToPoint(origin) = 0` then holds, so the origin at `t = 0` is
returned).  `intersectPlane` returns `null` for `t < 0`. -/
def intersectPlanePts (r : Ray) (a b c : Vec3) : Option Vec3 :=
  let n := cross (c - b) (a - b)
  let denom := dot n r.dir
  if denom = 0 then
    if dot n (r.origin - a) = 0 then some r.origin else none
  else
    let t := (dot n a - dot n r.origin) / denom
    if 0 ≤ t then some (Ray.rayAt r t) else none

/-- `THREE.Line3.closestPointToPoint(p, true, target)`: the parameter of the
closest point on the segment `[vStart, vEnd]`, clamped to `[0, 1]`. -/
def closestPointParam (vStart vEnd p : Vec3) : ℚ :=
  let se := vEnd - vStart
  max 0 (min 1 (dot se (p - vStart) / dot se se))

/-- The body of the per-segment loop of `featureIntersect` for a segment
starting at index-buffer offset `i`: `some record` when the segment yields
an intersection, `none` when any of the three tests rejects it. -/
def perSegment (g : BufferGeom) (indices : List ℕ) (localRay : Ray)
    (world : Affine) (rc : Raycaster) (localThresholdSq : ℚ) (i : ℕ) :
    Option IntersectionRecord :=
  let a := indices.getD i 0
  let b := indices.getD (i + 2) 0
  let vStart := g.position a
  let vEnd := g.position b
  let vExtrusion := g.bitangent a
  match intersectPlanePts localRay vStart (vStart + vExtrusion) vEnd with
  | none => none
  | some interPlane =>
      let closest := vStart + closestPointParam vStart vEnd interPlane • (vEnd - vStart)
      if localThresholdSq < distSq interPlane closest then none
      else
        let interLineWorld := world.applyPoint interPlane
        let d2 := distSq rc.ray.origin interLineWorld
        if sqrtLt d2 rc.near || sqrtGt d2 rc.far then none
        else some { distanceSq := d2, point := interLineWorld, index := i }

/-- The sphere pre-rejection test of `featureIntersect`:
`tmpSphere.copy(bSphere).applyMatrix4(this.matrixWorld)` scales the radius
by `getMaxScaleOnAxis` and moves the center; `tmpSphere.radius += threshold`
inflates it; `raycaster.ray.intersectsSphere(tmpSphere)` then compares
`distanceSqToPoint(center) ≤ radius²` with
`radius = Math.sqrt (radiusSq * maxScaleSq) + threshold`. -/
def sphereGate (rc : Raycaster) (world : Affine) (threshold : ℚ) (s : Sphere) : Bool :=
  let c := world.applyPoint s.center
  let bigS := s.radiusSq * world.maxScaleSq
  let d2 := rc.ray.distanceSqToPoint c
  leMulSqrt (d2 - bigS - threshold * threshold) (2 * threshold) bigS

/-- `featureIntersect`: the sphere gate followed by the per-segment loop
over `[beginIdx, endIdx)` with stride 6; the emitted records (in loop
order) are returned. -/
def featureIntersect (g : BufferGeom) (indices : List ℕ) (localRay : Ray)
    (world : Affine) (rc : Raycaster) (threshold localThresholdSq : ℚ)
    (beginIdx endIdx : ℕ) (bSphere : Sphere) : List IntersectionRecord :=
  if sphereGate rc world threshold bSphere then
    (strideIdxs beginIdx endIdx).filterMap
      (perSegment g indices localRay world rc localThresholdSq)
  else []

/-- `this.userData.feature?.starts` (before the call; `none` when the bag or
the list is absent). -/
def origStartsOf (m : Mesh) : Option (List ℕ) :=
  match m.feature with
  | some f => f.starts
  | none => none

/-- `const featureStarts = this.userData.feature.starts ?? [0]`. -/
def startsOf (m : Mesh) : List ℕ := (origStartsOf m).getD [0]

/-- `const bVolumes = this.userData.feature.boundingVolumes` (defaulting to
the empty list the call creates when the field is absent). -/
def bvolumesOf (m : Mesh) : List Sphere :=
  match m.feature with
  | some f => f.boundingVolumes.getD []
  | none => []

/-- The value `tmpNormal` holds during the per-feature loop: the active
geometry's normal attribute at vertex 0 on the displaced path
(`this.geometry === this.m_displacedGeometry`); on the other path the stale
temporary is never consumed (`computeBoundingSphere` ignores the normal when
no displacement range is passed), modelled as the zero vector. -/
def activeNormal0 (g : BufferGeom) (a : GeomRef) : Vec3 :=
  match a with
  | .displacedView _ _ => g.normal 0
  | .stored => 0

/-- The `displacementRange` local of `raycastImpl`: the displaced view's
range on the displaced path, `undefined` otherwise. -/
def activeRange (a : GeomRef) : Option DisplacementRange :=
  match a with
  | .displacedView _ range => some range
  | .stored => none

/-- `featureStarts[i]` (`const beginIdx = featureStarts[i]`). -/
def featureBegin (starts : List ℕ) (i : ℕ) : ℕ := starts.getD i 0

/-- `const endIdx = i === length - 1 ? indices.length : featureStarts[i + 1]`. -/
def featureEnd (starts indices : List ℕ) (i : ℕ) : ℕ :=
  if i = starts.length - 1 then indices.length else starts.getD (i + 1) 0

/-- The result of a `raycastImpl` call:

* `feature`: the final `this.userData.feature` (the call creates the bag and
  its `boundingVolumes` list when absent and appends computed spheres);
* `records`: the intersection records appended to the caller's `intersects`
  accumulator, in emission order;
* `debug`: `some n` when the call set `geometry.userData.debug = []` on the
  active geometry and pushed `n` entries into it (one per emitted record; the
  entry contents — world-space line, extrusion ray and threshold — are not
  needed by any claim and are abstracted to their count); `none` when the
  call failed before touching it;
* `failed`: whether an `assert(false)` was reached (the `@here/harp-utils`
  assertion throws, aborting the call). -/
structure ImplResult where
  feature : Option FeatureData
  records : List IntersectionRecord
  debug : Option ℕ
  failed : Bool

/-- The per-feature loop of `raycastImpl`, folding over the feature indices:
the state is `(bVolumes, intersects, debugCount)`.  A bounding sphere is
computed and appended when the cache has no entry for the feature
(`if (i >= bVolumes.length)`), then `featureIntersect` runs against
`bVolumes[i]`. -/
def implStep (g : BufferGeom) (indices : List ℕ) (starts : List ℕ)
    (localRay : Ray) (world : Affine) (rc : Raycaster)
    (threshold localThresholdSq : ℚ) (normal0 : Vec3)
    (drange : Option DisplacementRange)
    (st : List Sphere × List IntersectionRecord × ℕ) (i : ℕ) :
    List Sphere × List IntersectionRecord × ℕ :=
  let bvs := st.1
  let beginIdx := featureBegin starts i
  let endIdx := featureEnd starts indices i
  let bvs' := if bvs.length ≤ i then
      bvs ++ [computeBoundingSphere g.position indices beginIdx endIdx normal0 drange]
    else bvs
  let newRecs := featureIntersect g indices localRay world rc threshold
    localThresholdSq beginIdx endIdx (bvs'.getD i ⟨0, 0⟩)
  (bvs', st.2.1 ++ newRecs, st.2.2 + newRecs.length)

/-- `raycastImpl`, parametrized (for the sake of stating how the local
threshold is used) by the squared local threshold it passes to the width
test. -/
def raycastImplWith (m : Mesh) (active : GeomRef) (rc : Raycaster)
    (localThresholdSq : ℚ) : ImplResult :=
  match m.activeGeom active with
  | none =>
      -- `if (!(geometry instanceof THREE.BufferGeometry)) { assert(false); return; }`
      { feature := m.feature, records := [], debug := none, failed := true }
  | some g =>
      match g.index with
      | none =>
          -- `if (index === null) { assert(false); return; }`
          { feature := m.feature, records := [], debug := none, failed := true }
      | some indices =>
          let localRay := rc.ray.applyAffine m.matrixWorld.inverse
          let starts := startsOf m
          let bvs0 := bvolumesOf m
          let res := (List.range starts.length).foldl
            (implStep g indices starts localRay m.matrixWorld rc m.threshold
              localThresholdSq (activeNormal0 g active) (activeRange active))
            (bvs0, [], 0)
          { feature := some { starts := origStartsOf m, boundingVolumes := some res.1 },
            records := res.2.1,
            debug := some res.2.2,
            failed := false }

/-- `raycastImpl(raycaster, intersects)`. -/
def raycastImpl (m : Mesh) (active : GeomRef) (rc : Raycaster) : ImplResult :=
  raycastImplWith m active rc m.localThresholdSq

/-- The observable outcome of a `raycast` call: the `ImplResult` data plus
the final value of the `this.geometry` reference. -/
structure RaycastResult where
  finalGeometry : GeomRef
  feature : Option FeatureData
  records : List IntersectionRecord
  debug : Option ℕ
  failed : Bool

/-- `raycast(raycaster, intersects)`.

When the stored geometry is a `THREE.BufferGeometry` and the material has a
`THREE.DataTexture` displacement map, the displaced view is built (or reset)
over the stored geometry and substituted for `this.geometry`, `raycastImpl`
runs, and `this.geometry` is restored to
`this.m_displacedGeometry.originalGeometry`.  There is no `try`/`finally`:
when `raycastImpl` throws (its `assert(false)` calls), the restoring
assignment is never executed and the displaced view stays active.  On every
other path `raycastImpl` runs directly on the untouched stored geometry. -/
def raycast (m : Mesh) (rc : Raycaster) : RaycastResult :=
  match m.geometry, m.materialDisplacement with
  | .buffer _, some dmap =>
      let range := m.displacementRange
      let r := raycastImpl m (.displacedView dmap range) rc
      { finalGeometry := if r.failed then .displacedView dmap range else .stored,
        feature := r.feature, records := r.records, debug := r.debug,
        failed := r.failed }
  | .buffer _, none =>
      let r := raycastImpl m .stored rc
      { finalGeometry := .stored, feature := r.feature, records := r.records,
        debug := r.debug, failed := r.failed }
  | .nonBuffer, _ =>
      let r := raycastImpl m .stored rc
      { finalGeometry := .stored, feature := r.feature, records := r.records,
        debug := r.debug, failed := r.failed }

/-- Modelled from the spec: the "default whole-mesh triangle intersection
(external collaborator)" that spec sections 1 and 4.4 (step 1) claim the
engine delegates to when displacement is inactive.  It is "a capability of
the underlying rendering library": `THREE.Mesh.raycast` over every triangle
(three consecutive entries of the index buffer), using
`THREE.Ray.intersectTriangle` (Möller-Trumbore with front-face culling for
the default material side) on the local-space ray, transforming the hit
back to world space and applying the `[near, far]` bounds.  The
geometry-level bounding-sphere cull is omitted (it only prunes misses and
no claim depends on it); records are reported with the squared world
distance, the world point and the triangle's first index-buffer offset. -/
def intersectTriangle (r : Ray) (a b c : Vec3) (backfaceCulling : Bool) : Option Vec3 :=
  let edge1 := b - a
  let edge2 := c - a
  let normal := cross edge1 edge2
  let ddn := dot r.dir normal
  if ddn = 0 then none
  else
    let sign : ℚ := if 0 < ddn then 1 else -1
    if 0 < ddn ∧ backfaceCulling then none
    else
      let ddnAbs := sign * ddn
      let diff := r.origin - a
      let ddqxe2 := sign * dot r.dir (cross diff edge2)
      if ddqxe2 < 0 then none
      else
        let dde1xq := sign * dot r.dir (cross edge1 diff)
        if dde1xq < 0 then none
        else if ddnAbs < ddqxe2 + dde1xq then none
        else
          let qdn := -sign * dot diff normal
          if qdn < 0 then none
          else some (Ray.rayAt r (qdn / ddnAbs))

/-- Modelled from the spec: the whole-mesh triangle raycast (see
`intersectTriangle`) applied to the mesh's stored geometry. -/
def defaultMeshRaycast (m : Mesh) (rc : Raycaster) : List IntersectionRecord :=
  match m.geometry with
  | .nonBuffer => []
  | .buffer g =>
      match g.index with
      | none => []
      | some indices =>
          let localRay := rc.ray.applyAffine m.matrixWorld.inverse
          (List.range (indices.length / 3)).filterMap (fun k =>
            let a := g.position (indices.getD (3 * k) 0)
            let b := g.position (indices.getD (3 * k + 1) 0)
            let c := g.position (indices.getD (3 * k + 2) 0)
            match intersectTriangle localRay a b c true with
            | none => none
            | some p =>
                let pw := m.matrixWorld.applyPoint p
                let d2 := distSq rc.ray.origin pw
                if sqrtLt d2 rc.near || sqrtGt d2 rc.far then none
                else some { distanceSq := d2, point := pw, index := 3 * k })

/-- Modelled from the spec: the spec's step 4 of section 4.4 describes the
local threshold as "`threshold / averageAxisScale(worldTransform)`", the
average of the three axis scale factors of the mesh's world transform.  An
axis scale factor is the (nonnegative) norm of a column of the linear part,
i.e. the nonnegative real whose square is `colNormSq`. -/
def isAverageAxisScale (w : Affine) (s : ℝ) : Prop :=
  ∃ a b c : ℝ, 0 ≤ a ∧ 0 ≤ b ∧ 0 ≤ c ∧
    a ^ 2 = (w.colNormSq 0 : ℝ) ∧ b ^ 2 = (w.colNormSq 1 : ℝ) ∧
    c ^ 2 = (w.colNormSq 2 : ℝ) ∧ s = (a + b + c) / 3

/-- The sphere the per-feature loop actually uses for feature `i`: the
cached entry when the cache already holds one, the freshly computed (and
appended) bounding sphere otherwise. -/
def cachedOrComputed (bvs0 : List Sphere) (position : ℕ → Vec3)
    (indices starts : List ℕ) (normal0 : Vec3)
    (drange : Option DisplacementRange) (i : ℕ) : Sphere :=
  if i < bvs0.length then bvs0.getD i ⟨0, 0⟩
  else computeBoundingSphere position indices (featureBegin starts i)
    (featureEnd starts indices i) normal0 drange

theorem Vec3.add_zero_smul (u v : Vec3) : u + (0 : ℚ) • v = u := by
  cases u
  cases v
  simp [Vec3.add_def, Vec3.smul_def]

/-- The displaced view over the everywhere-zero displacement source is the
base geometry: `base + normal * 0 = base`. -/
theorem displacedGeom_zero (g : BufferGeom) : displacedGeom g (fun _ => 0) = g := by
  cases g with
  | mk pos nor uv bit idx =>
      unfold displacedGeom
      simp only [BufferGeom.mk.injEq, and_true, true_and]
      funext i
      exact Vec3.add_zero_smul (pos i) (nor i)



/-- Abstract form of the body of the per-feature loop of `raycastImpl`:
`C i` computes feature `i`'s sphere, `F i s` tests feature `i` against
sphere `s`; the state is `(bVolumes, intersects, debugCount)`. -/
def cacheStep (C : ℕ → Sphere) (F : ℕ → Sphere → List IntersectionRecord)
    (st : List Sphere × List IntersectionRecord × ℕ) (i : ℕ) :
    List Sphere × List IntersectionRecord × ℕ :=
  let bvs' := if st.1.length ≤ i then st.1 ++ [C i] else st.1
  let newRecs := F i (bvs'.getD i ⟨0, 0⟩)
  (bvs', st.2.1 ++ newRecs, st.2.2 + newRecs.length)

theorem cacheStep_eval (C : ℕ → Sphere) (F : ℕ → Sphere → List IntersectionRecord)
    (a : List Sphere) (b : List IntersectionRecord) (c : ℕ) (i : ℕ) :
    cacheStep C F (a, b, c) i =
      (if a.length ≤ i then a ++ [C i] else a,
        b ++ F i ((if a.length ≤ i then a ++ [C i] else a).getD i ⟨0, 0⟩),
        c + (F i ((if a.length ≤ i then a ++ [C i] else a).getD i ⟨0, 0⟩)).length) := rfl

/-- Folding the cache-then-test step over features `0, …, n-1` appends to
the cache exactly the spheres of the features it had no entry for, tests
each feature against its cached-or-computed sphere, and counts one debug
entry per emitted record. -/
theorem cacheFold_spec (C : ℕ → Sphere) (F : ℕ → Sphere → List IntersectionRecord)
    (bvs0 : List Sphere) (n : ℕ) :
    (List.range n).foldl (cacheStep C F) (bvs0, [], 0) =
    (bvs0 ++ (List.range' bvs0.length (n - bvs0.length)).map C,
      (List.range n).flatMap
        (fun i => F i (if i < bvs0.length then bvs0.getD i ⟨0, 0⟩ else C i)),
      ((List.range n).flatMap
        (fun i => F i (if i < bvs0.length then bvs0.getD i ⟨0, 0⟩ else C i))).length) := by
  induction n with
  | zero => simp
  | succ n ih =>
      rw [List.range_succ, List.foldl_append, ih, List.foldl_cons, List.foldl_nil,
        cacheStep_eval]
      by_cases hn : n < bvs0.length
      · have h0 : n - bvs0.length = 0 := by omega
        have hlen : (bvs0 ++ (List.range' bvs0.length (n - bvs0.length)).map C).length
            = bvs0.length := by simp [h0]
        have hpush : ¬ (bvs0 ++ (List.range' bvs0.length (n - bvs0.length)).map C).length ≤ n := by
          rw [hlen]; omega
        rw [if_neg hpush]
        have hget : (bvs0 ++ (List.range' bvs0.length (n - bvs0.length)).map C).getD n ⟨0, 0⟩
            = bvs0.getD n ⟨0, 0⟩ := List.getD_append _ _ _ _ hn
        rw [hget]
        have h1 : n + 1 - bvs0.length = n - bvs0.length := by omega
        rw [h1]
        simp [List.flatMap_cons, hn]
      · push_neg at hn
        have h1 : n + 1 - bvs0.length = (n - bvs0.length) + 1 := by omega
        have hlen : (bvs0 ++ (List.range' bvs0.length (n - bvs0.length)).map C).length = n := by
          simp; omega
        have hpush : (bvs0 ++ (List.range' bvs0.length (n - bvs0.length)).map C).length ≤ n := by
          rw [hlen]
        rw [if_pos hpush]
        have hget : ((bvs0 ++ (List.range' bvs0.length (n - bvs0.length)).map C) ++ [C n]).getD
            n ⟨0, 0⟩ = C n := by
          rw [List.getD_eq_getElem?_getD, List.getElem?_append_right (by rw [hlen])]
          rw [hlen]
          simp
        rw [hget]
        have hconcat : (bvs0 ++ (List.range' bvs0.length (n - bvs0.length)).map C) ++ [C n]
            = bvs0 ++ (List.range' bvs0.length ((n - bvs0.length) + 1)).map C := by
          rw [List.range'_concat, List.map_append, ← List.append_assoc]
          have hx : bvs0.length + 1 * (n - bvs0.length) = n := by omega
          rw [hx]
          simp
        rw [hconcat, h1]
        have hnn : ¬ n < bvs0.length := by omega
        simp [List.flatMap_cons, hnn]

theorem implStep_eq_cacheStep (g : BufferGeom) (indices starts : List ℕ)
    (localRay : Ray) (world : Affine) (rc : Raycaster) (threshold ltsq : ℚ)
    (normal0 : Vec3) (drange : Option DisplacementRange) :
    implStep g indices starts localRay world rc threshold ltsq normal0 drange =
      cacheStep
        (fun i => computeBoundingSphere g.position indices (featureBegin starts i)
          (featureEnd starts indices i) normal0 drange)
        (fun i s => featureIntersect g indices localRay world rc threshold ltsq
          (featureBegin starts i) (featureEnd starts indices i) s) := rfl

/-- The record list a successful `raycastImpl` call appends to the caller's
accumulator: each feature's `featureIntersect` result (feature order)
against its cached-or-computed bounding sphere. -/
def implRecords (m : Mesh) (active : GeomRef) (rc : Raycaster) (ltsq : ℚ)
    (g : BufferGeom) (indices : List ℕ) : List IntersectionRecord :=
  (List.range (startsOf m).length).flatMap (fun i =>
    featureIntersect g indices (rc.ray.applyAffine m.matrixWorld.inverse) m.matrixWorld rc
      m.threshold ltsq (featureBegin (startsOf m) i) (featureEnd (startsOf m) indices i)
      (cachedOrComputed (bvolumesOf m) g.position indices (startsOf m)
        (activeNormal0 g active) (activeRange active) i))

/-- The bounding spheres a successful `raycastImpl` call appends to the
cache: one per feature the cache had no entry for. -/
def implNewSpheres (m : Mesh) (active : GeomRef) (g : BufferGeom)
    (indices : List ℕ) : List Sphere :=
  (List.range' (bvolumesOf m).length ((startsOf m).length - (bvolumesOf m).length)).map
    (fun i => computeBoundingSphere g.position indices (featureBegin (startsOf m) i)
      (featureEnd (startsOf m) indices i) (activeNormal0 g active) (activeRange active))

/-- Characterization of `raycastImpl` on the non-asserting path (active
geometry is a buffer geometry with an index buffer). -/
theorem raycastImplWith_success (m : Mesh) (active : GeomRef) (rc : Raycaster)
    (ltsq : ℚ) (g : BufferGeom) (indices : List ℕ)
    (hg : m.activeGeom active = some g) (hidx : g.index = some indices) :
    raycastImplWith m active rc ltsq =
      { feature := some ⟨origStartsOf m,
          some (bvolumesOf m ++ implNewSpheres m active g indices)⟩,
        records := implRecords m active rc ltsq g indices,
        debug := some (implRecords m active rc ltsq g indices).length,
        failed := false } := by
  simp only [raycastImplWith, hg, hidx]
  rw [implStep_eq_cacheStep, cacheFold_spec]
  simp only [implRecords, implNewSpheres, cachedOrComputed]

/-! ## Concrete fixtures used by counterexamples and witnesses -/

/-- The everywhere-zero displacement source (a zero displacement map). -/
def dmapZero : DMap := fun _ => 0

/-- A single-segment solid-line geometry: centerline from the origin to
`(2, 0, 0)`, extrusion (bitangent) along `y`, the standard two-degenerate-
triangles index layout `[s, s, e, e, e, s]`. -/
def gSeg : BufferGeom :=
  { position := fun i => if i = 0 then ⟨0, 0, 0⟩ else ⟨2, 0, 0⟩,
    normal := fun _ => ⟨0, 0, 1⟩,
    uv := fun _ => (0, 0),
    bitangent := fun _ => ⟨0, 1, 0⟩,
    index := some [0, 0, 1, 1, 1, 0] }

/-- A mesh over `gSeg` without displacement capability. -/
def meshSeg : Mesh :=
  { geometry := .buffer gSeg, materialDisplacement := none,
    lineWidth := 1/10, outlineWidth := 0, scale := ⟨1, 1, 1⟩,
    matrixWorld := Affine.identityAffine, displacementRange := ⟨0, 0⟩,
    feature := none }

/-- A ray through `(1/20, 1/20, ·)`, hitting `gSeg`'s segment within the
width threshold at distance 3. -/
def rcSeg : Raycaster :=
  { ray := { origin := ⟨1/20, 1/20, -3⟩, dir := ⟨0, 0, 1⟩ }, near := 0, far := 100 }

/-- A four-segment single-feature line whose sampled spine vertices
`(0,1,0), (2,0,0), (4,1,0), (2,3,0)` have a bounding box (circumscribed
squared radius `25/4`) strictly looser than the tight fitted sphere
(squared radius `17/4`), and whose last segment runs from `(2,3,0)` to
`(2, 39/10, 0)`, sticking out of the tight sphere. -/
def gQuad : BufferGeom :=
  { position := fun i =>
      if i = 0 then ⟨0, 1, 0⟩
      else if i = 1 then ⟨2, 0, 0⟩
      else if i = 2 then ⟨4, 1, 0⟩
      else if i = 3 then ⟨2, 3, 0⟩
      else ⟨2, 39/10, 0⟩,
    normal := fun _ => ⟨0, 0, 1⟩,
    uv := fun _ => (0, 0),
    bitangent := fun _ => ⟨1, 0, 0⟩,
    index := some [0,0,1,1,1,0, 1,1,2,2,2,1, 2,2,3,3,3,2, 3,3,4,4,4,3] }

/-- `gQuad` with a displacement-capable material whose displacement source
is everywhere zero and whose displacement range is `min = max = 0`. -/
def meshQuadDisplaced : Mesh :=
  { geometry := .buffer gQuad, materialDisplacement := some dmapZero,
    lineWidth := 1/10, outlineWidth := 0, scale := ⟨1, 1, 1⟩,
    matrixWorld := Affine.identityAffine, displacementRange := ⟨0, 0⟩,
    feature := none }

/-- The same mesh with displacement disabled (no displacement material). -/
def meshQuadPlain : Mesh := { meshQuadDisplaced with materialDisplacement := none }

/-- A ray through `(2, 77/20, ·)`: it misses the tight fitted bounding
sphere inflated by the threshold but hits the looser box-derived sphere,
and passes within the width threshold of the last segment. -/
def rcQuad : Raycaster :=
  { ray := { origin := ⟨2, 77/20, -5⟩, dir := ⟨0, 0, 1⟩ }, near := 0, far := 100 }

/-- A buffer geometry with no index buffer (`geometry.index === null`). -/
def gNoIndex : BufferGeom :=
  { position := fun _ => 0, normal := fun _ => ⟨0, 0, 1⟩, uv := fun _ => (0, 0),
    bitangent := fun _ => ⟨0, 1, 0⟩, index := none }

/-- A displacement-capable mesh whose geometry has no index buffer: its
raycast reaches the assertion inside `raycastImpl` after the geometry has
been swapped for the displaced view. -/
def meshNoIndex : Mesh :=
  { geometry := .buffer gNoIndex, materialDisplacement := some dmapZero,
    lineWidth := 1/10, outlineWidth := 0, scale := ⟨1, 1, 1⟩,
    matrixWorld := Affine.identityAffine, displacementRange := ⟨0, 0⟩,
    feature := none }

/-- A mesh whose geometry is not a buffer geometry. -/
def meshNonBuffer : Mesh :=
  { geometry := .nonBuffer, materialDisplacement := none,
    lineWidth := 1/10, outlineWidth := 0, scale := ⟨1, 1, 1⟩,
    matrixWorld := Affine.identityAffine, displacementRange := ⟨0, 0⟩,
    feature := none }

/-- A mesh whose `scale` property is `(-1, -1, -1)` with the matching world
transform `diag(-1, -1, -1)` (an unparented `THREE.Object3D` with that scale
and an updated matrix): the axis scale factors (column norms) of the world
transform are `(1, 1, 1)`, while the sum of the scale components is `-3`. -/
def meshNegScale : Mesh :=
  { geometry := .buffer gSeg, materialDisplacement := none,
    lineWidth := 3, outlineWidth := 0, scale := ⟨-1, -1, -1⟩,
    matrixWorld := { r0 := ⟨-1, 0, 0⟩, r1 := ⟨0, -1, 0⟩, r2 := ⟨0, 0, -1⟩, t := 0 },
    displacementRange := ⟨0, 0⟩, feature := none }

/-! ## Claim C1 -/

/-- C1, amended (counterexample: `spec_C1_counterexample`): on every call
that returns normally (no assertion failure), the mesh's active geometry
reference is restored to its pre-call value (`this.geometry` again
references the stored geometry).  The unamended claim — restoration on
exceptional/failure paths too — is false: `raycast` has no `try`/`finally`,
so when `raycastImpl` throws, the displaced view stays installed. -/
theorem spec_C1 (m : Mesh) (rc : Raycaster) (h : (raycast m rc).failed = false) :
    (raycast m rc).finalGeometry = GeomRef.stored := by
  cases hg : m.geometry with
  | nonBuffer => simp [raycast, hg]
  | buffer g =>
      cases hd : m.materialDisplacement with
      | none => simp [raycast, hg, hd]
      | some dmap =>
          simp only [raycast, hg, hd] at h ⊢
          simp [h]

/-- C1 witness: a displaced raycast that returns normally (the four-segment
fixture) has its geometry reference restored. -/
theorem spec_C1_witness :
    (raycast meshQuadDisplaced rcQuad).failed = false ∧
      (raycast meshQuadDisplaced rcQuad).finalGeometry = GeomRef.stored :=
  ⟨by decide, spec_C1 meshQuadDisplaced rcQuad (by decide)⟩

/-- C1 counterexample: raycasting a displacement-capable mesh whose
geometry has no index buffer reaches `assert(false)` inside `raycastImpl`
after the displaced view has been substituted; the assertion throws
(`@here/harp-utils` `assert`, and spec section 7 calls the failure
"fatal-for-the-call"), the restoring assignment after the `raycastImpl`
call is skipped, and the mesh's active geometry is NOT restored to its
pre-call value. -/
theorem spec_C1_counterexample :
    (raycast meshNoIndex rcSeg).failed = true ∧
      (raycast meshNoIndex rcSeg).finalGeometry ≠ GeomRef.stored := by
  constructor
  · rfl
  · have h : (raycast meshNoIndex rcSeg).finalGeometry =
        GeomRef.displacedView dmapZero ⟨0, 0⟩ := rfl
    rw [h]
    intro hEq
    exact GeomRef.noConfusion hEq

/-! ## Claim C2 -/

/-- C2, amended (counterexample: `spec_C2_counterexample`): when the
geometry is not a buffer geometry or the material lacks a displacement
capability or a `DataTexture` displacement source, `raycast` does NOT
delegate to the rendering library's default whole-mesh triangle
intersection; it runs the mesh's own per-feature/per-segment line
intersection (`raycastImpl`) against the stored, undisplaced geometry, with
no geometry substitution. -/
theorem spec_C2 (m : Mesh) (rc : Raycaster)
    (h : m.materialDisplacement = none ∨ m.geometry = StoredGeom.nonBuffer) :
    raycast m rc =
      { finalGeometry := GeomRef.stored,
        feature := (raycastImpl m .stored rc).feature,
        records := (raycastImpl m .stored rc).records,
        debug := (raycastImpl m .stored rc).debug,
        failed := (raycastImpl m .stored rc).failed } := by
  cases hg : m.geometry with
  | nonBuffer => simp [raycast, hg]
  | buffer g =>
      cases h with
      | inl hd => simp [raycast, hg, hd]
      | inr hnb => rw [hg] at hnb; exact StoredGeom.noConfusion hnb

/-- C2 witness: a non-displacement mesh raycast equals its own
`raycastImpl` run on the stored geometry. -/
theorem spec_C2_witness :
    raycast meshSeg rcSeg =
      { finalGeometry := GeomRef.stored,
        feature := (raycastImpl meshSeg .stored rcSeg).feature,
        records := (raycastImpl meshSeg .stored rcSeg).records,
        debug := (raycastImpl meshSeg .stored rcSeg).debug,
        failed := (raycastImpl meshSeg .stored rcSeg).failed } :=
  spec_C2 meshSeg rcSeg (Or.inl rfl)

/-- C2 counterexample: with displacement inactive (no displacement
material), the engine emits a per-segment line intersection record for
`meshSeg` while the default whole-mesh triangle intersection of the
underlying rendering library (`defaultMeshRaycast`, modelled from the spec)
returns nothing — every triangle of an extruded-line mesh is degenerate
before the vertex shader widens it — so the result is NOT the delegate's
result. -/
theorem spec_C2_counterexample :
    (raycast meshSeg rcSeg).records =
        [{ distanceSq := 9, point := ⟨1/20, 1/20, 0⟩, index := 0 }] ∧
      defaultMeshRaycast meshSeg rcSeg = [] ∧
      (raycast meshSeg rcSeg).records ≠ defaultMeshRaycast meshSeg rcSeg := by
  refine ⟨by with_unfolding_all decide, by with_unfolding_all decide,
    by with_unfolding_all decide⟩

/-! ## Claim C8 -/

/-- C8, confirmed: raycasting a mesh whose active geometry is not a buffer
geometry or has no index buffer fails the call with an assertion
(`failed = true`), appends no intersection records, writes no debug data
and leaves the feature metadata untouched (no recovery, no partial
results). -/
theorem spec_C8 (m : Mesh) (rc : Raycaster)
    (h : m.geometry = StoredGeom.nonBuffer ∨
      ∃ g, m.geometry = StoredGeom.buffer g ∧ g.index = none) :
    (raycast m rc).failed = true ∧ (raycast m rc).records = [] ∧
      (raycast m rc).debug = none ∧ (raycast m rc).feature = m.feature := by
  cases h with
  | inl hg =>
      cases hd : m.materialDisplacement with
      | none => simp [raycast, hg, hd, raycastImpl, raycastImplWith, Mesh.activeGeom]
      | some dmap => simp [raycast, hg, hd, raycastImpl, raycastImplWith, Mesh.activeGeom]
  | inr hex =>
      obtain ⟨g, hg, hidx⟩ := hex
      cases hd : m.materialDisplacement with
      | none =>
          simp [raycast, hg, hd, raycastImpl, raycastImplWith, Mesh.activeGeom, hidx]
      | some dmap =>
          simp [raycast, hg, hd, raycastImpl, raycastImplWith, Mesh.activeGeom,
            displacedGeom, hidx]

/-- C8 witness: the non-buffer-geometry mesh fails its raycast with no
records. -/
theorem spec_C8_witness :
    (raycast meshNonBuffer rcSeg).failed = true ∧
      (raycast meshNonBuffer rcSeg).records = [] :=
  ⟨(spec_C8 meshNonBuffer rcSeg (Or.inl rfl)).1,
    (spec_C8 meshNonBuffer rcSeg (Or.inl rfl)).2.1⟩

/-! ## Bounding-sphere lemmas (claims C5, C6, C9) -/

theorem foldl_expand_mono (l : List ℕ) (f : ℕ → Vec3) (b0 : Box3) (p : Vec3)
    (h : Box3.containsPoint b0 p) :
    Box3.containsPoint (l.foldl (fun b j => Box3.expandByPoint b (f j)) b0) p := by
  induction l generalizing b0 with
  | nil => exact h
  | cons x xs ih => exact ih _ (Box3.containsPoint_expand_mono _ _ _ h)

theorem foldl_expand_contains (l : List ℕ) (f : ℕ → Vec3) (b0 : Box3) (i : ℕ)
    (hi : i ∈ l) :
    Box3.containsPoint (l.foldl (fun b j => Box3.expandByPoint b (f j)) b0) (f i) := by
  induction l generalizing b0 with
  | nil => cases hi
  | cons x xs ih =>
      rcases List.mem_cons.mp hi with h | h
      · subst h
        exact foldl_expand_mono xs f _ _ (Box3.containsPoint_expand_self b0 (f i))
      · exact ih _ h

/-- Every sampled spine vertex lies in the sampled box. -/
theorem sampledBox_contains (position : ℕ → Vec3) (indices : List ℕ)
    (beginIdx endIdx : ℕ) (i : ℕ) (hi : i ∈ strideIdxs beginIdx endIdx) :
    Box3.containsPoint (sampledBox position indices beginIdx endIdx)
      (position (indices.getD i 0)) :=
  foldl_expand_contains _ (fun j => position (indices.getD j 0)) _ i hi

theorem le_foldl_max (l : List ℕ) (f : ℕ → ℚ) (a : ℚ) :
    a ≤ l.foldl (fun m j => max m (f j)) a := by
  induction l generalizing a with
  | nil => exact le_refl a
  | cons x xs ih => exact le_trans (le_max_left a (f x)) (ih _)

theorem foldl_max_le_mem (l : List ℕ) (f : ℕ → ℚ) (a : ℚ) (i : ℕ) (hi : i ∈ l) :
    f i ≤ l.foldl (fun m j => max m (f j)) a := by
  induction l generalizing a with
  | nil => cases hi
  | cons x xs ih =>
      rcases List.mem_cons.mp hi with h | h
      · subst h
        exact le_trans (le_max_right a (f i)) (le_foldl_max xs f _)
      · exact ih _ h

theorem foldl_max_attained (l : List ℕ) (f : ℕ → ℚ) (a : ℚ) :
    l.foldl (fun m j => max m (f j)) a = a ∨
      ∃ i ∈ l, l.foldl (fun m j => max m (f j)) a = f i := by
  induction l generalizing a with
  | nil => exact Or.inl rfl
  | cons x xs ih =>
      rcases ih (max a (f x)) with h | hex
      · rcases le_total a (f x) with hle | hle
        · refine Or.inr ⟨x, List.mem_cons_self x xs, ?_⟩
          rw [List.foldl_cons, h, max_eq_right hle]
        · refine Or.inl ?_
          rw [List.foldl_cons, h, max_eq_left hle]
      · obtain ⟨i, hi, hv⟩ := hex
        exact Or.inr ⟨i, List.mem_cons_of_mem x hi, hv⟩

/-- A feature with at least one segment samples at least one vertex. -/
theorem strideIdxs_ne_nil (beginIdx endIdx : ℕ) (h : beginIdx < endIdx) :
    strideIdxs beginIdx endIdx ≠ [] := by
  unfold strideIdxs
  simp only [ne_eq, List.map_eq_nil_iff, List.range_eq_nil]
  omega

/-- The single index sampled by a one-segment feature. -/
theorem strideIdxs_single (beginIdx : ℕ) :
    strideIdxs beginIdx (beginIdx + 6) = [beginIdx] := by
  unfold strideIdxs
  have h : beginIdx + 6 - beginIdx + 5 = 11 := by omega
  rw [h]
  norm_num [List.range_succ]

theorem foldl_congr_mem {α β : Type} (l : List β) (f g : α → β → α) (a : α)
    (h : ∀ acc, ∀ i ∈ l, f acc i = g acc i) : l.foldl f a = l.foldl g a := by
  induction l generalizing a with
  | nil => rfl
  | cons x xs ih =>
      rw [List.foldl_cons, List.foldl_cons, h a x (List.mem_cons_self x xs)]
      exact ih _ (fun acc i hi => h acc i (List.mem_cons_of_mem x hi))

theorem Vec3.half_smul_add_self (v : Vec3) : ((1 : ℚ) / 2) • (v + v) = v := by
  cases v
  simp only [Vec3.add_def, Vec3.smul_def, Vec3.mk.injEq]
  refine ⟨by ring, by ring, by ring⟩

/-! ## Claim C9 -/

/-- C9, confirmed: `computeBoundingSphere` samples only the even-offset
spine vertex `indices[i]` of each stride-6 segment (the sphere is invariant
under changing the index buffer anywhere else, in particular at the
`indices[i + 2]` end-vertex slots); consequently a one-segment feature
yields the degenerate sphere centered at the segment's start vertex with
radius 0, and in general the sphere need not contain the final segment's
end vertex — witnessed by the concrete one-segment fixture, whose end
vertex lies strictly outside its sphere. -/
theorem spec_C9 :
    (∀ (position : ℕ → Vec3) (indices indices' : List ℕ) (beginIdx endIdx : ℕ)
        (normal : Vec3) (dr : Option DisplacementRange),
      (∀ i ∈ strideIdxs beginIdx endIdx, indices.getD i 0 = indices'.getD i 0) →
      computeBoundingSphere position indices beginIdx endIdx normal dr
        = computeBoundingSphere position indices' beginIdx endIdx normal dr) ∧
    (∀ (position : ℕ → Vec3) (indices : List ℕ) (beginIdx : ℕ) (normal : Vec3),
      computeBoundingSphere position indices beginIdx (beginIdx + 6) normal none
        = ⟨position (indices.getD beginIdx 0), 0⟩) ∧
    ((computeBoundingSphere gSeg.position [0, 0, 1, 1, 1, 0] 0 6 ⟨0, 0, 1⟩ none).radiusSq
      < distSq
        (computeBoundingSphere gSeg.position [0, 0, 1, 1, 1, 0] 0 6 ⟨0, 0, 1⟩ none).center
        (gSeg.position ([0, 0, 1, 1, 1, 0].getD 2 0))) := by
  refine ⟨?_, ?_, ?_⟩
  · intro position indices indices' beginIdx endIdx normal dr h
    have hbox : sampledBox position indices beginIdx endIdx
        = sampledBox position indices' beginIdx endIdx := by
      unfold sampledBox
      exact foldl_congr_mem _ _ _ _ (fun acc i hi => by rw [h i hi])
    unfold computeBoundingSphere
    cases dr with
    | none =>
        rw [hbox]
        have hmax : (strideIdxs beginIdx endIdx).foldl
            (fun m i => max m (distSq (Box3.center (sampledBox position indices' beginIdx endIdx))
              (position (indices.getD i 0)))) 0
            = (strideIdxs beginIdx endIdx).foldl
            (fun m i => max m (distSq (Box3.center (sampledBox position indices' beginIdx endIdx))
              (position (indices'.getD i 0)))) 0 :=
          foldl_congr_mem _ _ _ _ (fun acc i hi => by rw [h i hi])
        simp only [hmax]
    | some r => rw [hbox]
  · intro position indices beginIdx normal
    unfold computeBoundingSphere sampledBox
    rw [strideIdxs_single]
    simp only [List.foldl_cons, List.foldl_nil]
    have hbox : Box3.expandByPoint Box3.emptyBox (position (indices.getD beginIdx 0))
        = some (position (indices.getD beginIdx 0), position (indices.getD beginIdx 0)) := rfl
    rw [hbox]
    have hc : Box3.center (some (position (indices.getD beginIdx 0),
        position (indices.getD beginIdx 0))) = position (indices.getD beginIdx 0) :=
      Vec3.half_smul_add_self _
    rw [hc, distSq_self]
    simp
  · with_unfolding_all decide

/-- C9 witness: the sphere of `gSeg`'s single segment ignores every
non-sampled index slot (here all six slots but the first differ), and is
the degenerate sphere at the start vertex. -/
theorem spec_C9_witness :
    computeBoundingSphere gSeg.position [0, 0, 1, 1, 1, 0] 0 6 ⟨0, 0, 1⟩ none
        = computeBoundingSphere gSeg.position [0, 99, 7, 5, 3, 2] 0 6 ⟨0, 0, 1⟩ none ∧
      computeBoundingSphere gSeg.position [0, 0, 1, 1, 1, 0] 0 6 ⟨0, 0, 1⟩ none
        = ⟨gSeg.position 0, 0⟩ :=
  ⟨spec_C9.1 gSeg.position [0, 0, 1, 1, 1, 0] [0, 99, 7, 5, 3, 2] 0 6 ⟨0, 0, 1⟩ none
      (by with_unfolding_all decide),
    spec_C9.2.1 gSeg.position [0, 0, 1, 1, 1, 0] 0 ⟨0, 0, 1⟩⟩

/-! ## Claim C6 -/

/-- C6, confirmed: without a displacement range and with at least one
sampled vertex, `computeBoundingSphere` centers the sphere at the center of
the axis-aligned box over the sampled spine vertices (stride 6, `indices[i]`
only), and its squared radius is attained as the squared distance from that
center to some sampled vertex while bounding the squared distance to every
sampled vertex — i.e. the radius is the maximum Euclidean distance from the
center to the sampled vertices (stated in squared form since the source
stores `radius = Math.sqrt maxRadiusSq`), and every sampled centerline
vertex lies within the sphere (also stated with `Real.sqrt` distances). -/
theorem spec_C6 (position : ℕ → Vec3) (indices : List ℕ) (beginIdx endIdx : ℕ)
    (normal : Vec3) (hne : beginIdx < endIdx) (s : Sphere)
    (hs : s = computeBoundingSphere position indices beginIdx endIdx normal none) :
    s.center = Box3.center (sampledBox position indices beginIdx endIdx) ∧
      (∀ i ∈ strideIdxs beginIdx endIdx,
        distSq s.center (position (indices.getD i 0)) ≤ s.radiusSq) ∧
      (∃ i ∈ strideIdxs beginIdx endIdx,
        s.radiusSq = distSq s.center (position (indices.getD i 0))) ∧
      (∀ i ∈ strideIdxs beginIdx endIdx,
        Real.sqrt ((distSq s.center (position (indices.getD i 0)) : ℚ) : ℝ)
          ≤ Real.sqrt ((s.radiusSq : ℚ) : ℝ)) := by
  have heq : computeBoundingSphere position indices beginIdx endIdx normal none =
      ⟨Box3.center (sampledBox position indices beginIdx endIdx),
        (strideIdxs beginIdx endIdx).foldl
          (fun m i => max m (distSq (Box3.center (sampledBox position indices beginIdx endIdx))
            (position (indices.getD i 0)))) 0⟩ := rfl
  subst hs
  rw [heq]
  refine ⟨rfl, ?_, ?_, ?_⟩
  · intro i hi
    exact foldl_max_le_mem _ _ _ i hi
  · rcases foldl_max_attained (strideIdxs beginIdx endIdx)
        (fun i => distSq (Box3.center (sampledBox position indices beginIdx endIdx))
          (position (indices.getD i 0))) 0 with hz | hex
    · obtain ⟨i, hi⟩ := List.exists_mem_of_ne_nil _ (strideIdxs_ne_nil _ _ hne)
      refine ⟨i, hi, ?_⟩
      have hle := foldl_max_le_mem (strideIdxs beginIdx endIdx)
        (fun j => distSq (Box3.center (sampledBox position indices beginIdx endIdx))
          (position (indices.getD j 0))) 0 i hi
      have hge := distSq_nonneg (Box3.center (sampledBox position indices beginIdx endIdx))
        (position (indices.getD i 0))
      rw [hz] at hle ⊢
      exact le_antisymm hge hle
    · obtain ⟨i, hi, hv⟩ := hex
      exact ⟨i, hi, hv⟩
  · intro i hi
    have h := foldl_max_le_mem (strideIdxs beginIdx endIdx)
      (fun j => distSq (Box3.center (sampledBox position indices beginIdx endIdx))
        (position (indices.getD j 0))) 0 i hi
    exact Real.sqrt_le_sqrt (by exact_mod_cast h)

/-- C6 witness: the four-segment fixture's non-displaced sphere, with the
containment instantiated at the first sampled vertex and the radius
attained among the sampled vertices. -/
theorem spec_C6_witness :
    (computeBoundingSphere gQuad.position
        [0,0,1,1,1,0, 1,1,2,2,2,1, 2,2,3,3,3,2, 3,3,4,4,4,3] 0 24 ⟨0, 0, 1⟩ none).center
      = Box3.center (sampledBox gQuad.position
        [0,0,1,1,1,0, 1,1,2,2,2,1, 2,2,3,3,3,2, 3,3,4,4,4,3] 0 24) ∧
    distSq (computeBoundingSphere gQuad.position
        [0,0,1,1,1,0, 1,1,2,2,2,1, 2,2,3,3,3,2, 3,3,4,4,4,3] 0 24 ⟨0, 0, 1⟩ none).center
        (gQuad.position 0)
      ≤ (computeBoundingSphere gQuad.position
        [0,0,1,1,1,0, 1,1,2,2,2,1, 2,2,3,3,3,2, 3,3,4,4,4,3] 0 24 ⟨0, 0, 1⟩ none).radiusSq ∧
    (∃ i ∈ strideIdxs 0 24,
      (computeBoundingSphere gQuad.position
        [0,0,1,1,1,0, 1,1,2,2,2,1, 2,2,3,3,3,2, 3,3,4,4,4,3] 0 24 ⟨0, 0, 1⟩ none).radiusSq
        = distSq (computeBoundingSphere gQuad.position
          [0,0,1,1,1,0, 1,1,2,2,2,1, 2,2,3,3,3,2, 3,3,4,4,4,3] 0 24 ⟨0, 0, 1⟩ none).center
          (gQuad.position
            ([0,0,1,1,1,0, 1,1,2,2,2,1, 2,2,3,3,3,2, 3,3,4,4,4,3].getD i 0))) := by
  have h := spec_C6 gQuad.position
    [0,0,1,1,1,0, 1,1,2,2,2,1, 2,2,3,3,3,2, 3,3,4,4,4,3] 0 24 ⟨0, 0, 1⟩
    (by omega) _ rfl
  exact ⟨h.1, h.2.1 0 (by with_unfolding_all decide), h.2.2.1⟩

/-! ## Claim C5 -/

/-- C5, confirmed: with a displacement range, `computeBoundingSphere`
returns exactly the bounding sphere of the union of the two translated
copies of the sampled-vertex box (one translated by `range.min • normal`,
one by `range.max • normal`), and consequently the sphere contains every
sampled vertex translated by `range.min` along the sampled normal and every
sampled vertex translated by `range.max` along it (squared form; the
`Real.sqrt` distance form follows by monotonicity and is included). -/
theorem spec_C5 (position : ℕ → Vec3) (indices : List ℕ) (beginIdx endIdx : ℕ)
    (normal : Vec3) (r : DisplacementRange) (s : Sphere)
    (hs : s = computeBoundingSphere position indices beginIdx endIdx normal (some r)) :
    s = ⟨Box3.center
          (Box3.union
            (Box3.translate (sampledBox position indices beginIdx endIdx) (r.min • normal))
            (Box3.translate (sampledBox position indices beginIdx endIdx) (r.max • normal))),
        normSq (Box3.size
          (Box3.union
            (Box3.translate (sampledBox position indices beginIdx endIdx) (r.min • normal))
            (Box3.translate (sampledBox position indices beginIdx endIdx) (r.max • normal)))) / 4⟩ ∧
      (∀ i ∈ strideIdxs beginIdx endIdx,
        distSq s.center (position (indices.getD i 0) + r.min • normal) ≤ s.radiusSq ∧
          distSq s.center (position (indices.getD i 0) + r.max • normal) ≤ s.radiusSq ∧
          Real.sqrt ((distSq s.center (position (indices.getD i 0) + r.min • normal) : ℚ) : ℝ)
            ≤ Real.sqrt ((s.radiusSq : ℚ) : ℝ) ∧
          Real.sqrt ((distSq s.center (position (indices.getD i 0) + r.max • normal) : ℚ) : ℝ)
            ≤ Real.sqrt ((s.radiusSq : ℚ) : ℝ)) := by
  subst hs
  refine ⟨rfl, ?_⟩
  intro i hi
  have hmem := sampledBox_contains position indices beginIdx endIdx i hi
  have hminMem : Box3.containsPoint
      (Box3.union
        (Box3.translate (sampledBox position indices beginIdx endIdx) (r.min • normal))
        (Box3.translate (sampledBox position indices beginIdx endIdx) (r.max • normal)))
      (position (indices.getD i 0) + r.min • normal) :=
    Box3.containsPoint_union_left _ _ _ (Box3.containsPoint_translate _ _ _ hmem)
  have hmaxMem : Box3.containsPoint
      (Box3.union
        (Box3.translate (sampledBox position indices beginIdx endIdx) (r.min • normal))
        (Box3.translate (sampledBox position indices beginIdx endIdx) (r.max • normal)))
      (position (indices.getD i 0) + r.max • normal) :=
    Box3.containsPoint_union_right _ _ _ (Box3.containsPoint_translate _ _ _ hmem)
  have hmin := Box3.distSq_center_le_of_containsPoint _ _ hminMem
  have hmax := Box3.distSq_center_le_of_containsPoint _ _ hmaxMem
  exact ⟨hmin, hmax, Real.sqrt_le_sqrt (by exact_mod_cast hmin),
    Real.sqrt_le_sqrt (by exact_mod_cast hmax)⟩

/-- C5 witness: the one-segment fixture with displacement range
`(-1, 2)` and sampled normal `(0, 0, 1)`: its displaced-range sphere
contains the sampled vertex translated by both range ends. -/
theorem spec_C5_witness :
    distSq (computeBoundingSphere gSeg.position [0, 0, 1, 1, 1, 0] 0 6 ⟨0, 0, 1⟩
          (some ⟨-1, 2⟩)).center
        (gSeg.position ([0, 0, 1, 1, 1, 0].getD 0 0) + (-1 : ℚ) • (⟨0, 0, 1⟩ : Vec3))
      ≤ (computeBoundingSphere gSeg.position [0, 0, 1, 1, 1, 0] 0 6 ⟨0, 0, 1⟩
          (some ⟨-1, 2⟩)).radiusSq ∧
    distSq (computeBoundingSphere gSeg.position [0, 0, 1, 1, 1, 0] 0 6 ⟨0, 0, 1⟩
          (some ⟨-1, 2⟩)).center
        (gSeg.position ([0, 0, 1, 1, 1, 0].getD 0 0) + (2 : ℚ) • (⟨0, 0, 1⟩ : Vec3))
      ≤ (computeBoundingSphere gSeg.position [0, 0, 1, 1, 1, 0] 0 6 ⟨0, 0, 1⟩
          (some ⟨-1, 2⟩)).radiusSq := by
  have h := (spec_C5 gSeg.position [0, 0, 1, 1, 1, 0] 0 6 ⟨0, 0, 1⟩ ⟨-1, 2⟩ _ rfl).2
    0 (by with_unfolding_all decide)
  exact ⟨h.1, h.2.1⟩

/-! ## Claim C4 -/

/-- C4, amended (counterexample: `spec_C4_counterexample`): the local-space
width threshold is computed from the mesh's own `scale` property —
`localThreshold = threshold / ((scale.x + scale.y + scale.z) / 3)` — not
from the axis scale factors of the world transform (the two agree only for
an unparented mesh with nonnegative scale components and an up-to-date
matrix), and `localThresholdSq = localThreshold * localThreshold` is the
value `raycastImpl` passes to the width test. -/
theorem spec_C4 (m : Mesh) (active : GeomRef) (rc : Raycaster) :
    m.localThreshold = m.threshold / ((m.scale.x + m.scale.y + m.scale.z) / 3) ∧
      m.localThresholdSq = m.localThreshold * m.localThreshold ∧
      raycastImpl m active rc = raycastImplWith m active rc m.localThresholdSq :=
  ⟨rfl, rfl, rfl⟩

/-- C4 counterexample: for the mesh with `scale = (-1, -1, -1)` and the
matching world transform `diag(-1, -1, -1)`, every axis scale factor of the
world transform is `1` (so the spec's formula gives `threshold / 1 = 3`),
`-3` is not an average of axis scale factors (they are nonnegative), yet
the code computes `localThreshold = 3 / (-3/3) = -3`. -/
theorem spec_C4_counterexample :
    Mesh.localThreshold meshNegScale = -3 ∧
      isAverageAxisScale meshNegScale.matrixWorld 1 ∧
      ((Mesh.threshold meshNegScale : ℚ) : ℝ) / 1 = 3 ∧
      ¬ isAverageAxisScale meshNegScale.matrixWorld (((-3 : ℚ) : ℝ)) ∧
      ((-3 : ℚ) : ℝ) ≠ (3 : ℝ) := by
  have h0 : meshNegScale.matrixWorld.colNormSq 0 = 1 := by with_unfolding_all decide
  have h1 : meshNegScale.matrixWorld.colNormSq 1 = 1 := by with_unfolding_all decide
  have h2 : meshNegScale.matrixWorld.colNormSq 2 = 1 := by with_unfolding_all decide
  refine ⟨by with_unfolding_all decide, ?_, ?_, ?_, by norm_num⟩
  · exact ⟨1, 1, 1, by norm_num, by norm_num, by norm_num,
      by rw [h0]; norm_num, by rw [h1]; norm_num, by rw [h2]; norm_num, by norm_num⟩
  · have ht : Mesh.threshold meshNegScale = 3 := by with_unfolding_all decide
    rw [ht]
    norm_num
  · rintro ⟨a, b, c, ha, hb, hc, ha2, hb2, hc2, hsum⟩
    rw [h0] at ha2
    rw [h1] at hb2
    rw [h2] at hc2
    have ha1 : a = 1 := by nlinarith
    have hb1 : b = 1 := by nlinarith
    have hc1 : c = 1 := by nlinarith
    rw [ha1, hb1, hc1] at hsum
    norm_num at hsum

/-! ## Claim C10 -/

/-- C10, confirmed: every raycast call that reaches the per-feature loop
(i.e. that does not fail the assertions) mutates persistent state beyond
the temporary geometry swap: it sets the active geometry's
`userData.debug` to an array holding one entry per emitted intersection
record (one push before each record push; an empty array when no record is
emitted), creates `this.userData.feature` and its `boundingVolumes` list
when absent, and appends the newly computed bounding spheres — one per
feature the cache had no entry for — to that cache. -/
theorem spec_C10 (m : Mesh) (rc : Raycaster) (h : (raycast m rc).failed = false) :
    (raycast m rc).debug = some (raycast m rc).records.length ∧
      ∃ newBVs : List Sphere,
        (raycast m rc).feature = some ⟨origStartsOf m, some (bvolumesOf m ++ newBVs)⟩ ∧
          newBVs.length = (startsOf m).length - (bvolumesOf m).length := by
  cases hgeom : m.geometry with
  | nonBuffer =>
      exfalso
      simp [raycast, hgeom, raycastImpl, raycastImplWith, Mesh.activeGeom] at h
  | buffer g =>
      cases hd : m.materialDisplacement with
      | none =>
          cases hidx : g.index with
          | none =>
              exfalso
              simp [raycast, hgeom, hd, raycastImpl, raycastImplWith,
                Mesh.activeGeom, hidx] at h
          | some indices =>
              have hsucc := raycastImplWith_success m .stored rc m.localThresholdSq g indices
                (by simp [Mesh.activeGeom, hgeom]) hidx
              have hr : raycast m rc =
                  { finalGeometry := GeomRef.stored,
                    feature := (raycastImpl m .stored rc).feature,
                    records := (raycastImpl m .stored rc).records,
                    debug := (raycastImpl m .stored rc).debug,
                    failed := (raycastImpl m .stored rc).failed } := by
                simp [raycast, hgeom, hd]
              rw [hr]
              rw [raycastImpl, hsucc]
              refine ⟨rfl, implNewSpheres m .stored g indices, rfl, ?_⟩
              simp [implNewSpheres]
      | some dmap =>
          cases hidx : g.index with
          | none =>
              exfalso
              simp [raycast, hgeom, hd, raycastImpl, raycastImplWith,
                Mesh.activeGeom, displacedGeom, hidx] at h
          | some indices =>
              have hag : m.activeGeom (.displacedView dmap m.displacementRange)
                  = some (displacedGeom g dmap) := by
                simp [Mesh.activeGeom, hgeom]
              have hsucc := raycastImplWith_success m
                (.displacedView dmap m.displacementRange) rc m.localThresholdSq
                (displacedGeom g dmap) indices hag (by simp [displacedGeom, hidx])
              have hr2 : (raycast m rc).feature =
                    (raycastImpl m (.displacedView dmap m.displacementRange) rc).feature ∧
                  (raycast m rc).records =
                    (raycastImpl m (.displacedView dmap m.displacementRange) rc).records ∧
                  (raycast m rc).debug =
                    (raycastImpl m (.displacedView dmap m.displacementRange) rc).debug := by
                simp [raycast, hgeom, hd]
              obtain ⟨hf, hrec, hdbg⟩ := hr2
              rw [hf, hrec, hdbg, raycastImpl, hsucc]
              refine ⟨rfl,
                implNewSpheres m (.displacedView dmap m.displacementRange)
                  (displacedGeom g dmap) indices, rfl, ?_⟩
              simp [implNewSpheres]

/-- C10 witness: the four-segment displaced fixture (fresh metadata): the
call creates the feature bag, caches one sphere (one feature, empty cache)
and leaves one debug entry for its one emitted record. -/
theorem spec_C10_witness :
    (raycast meshQuadDisplaced rcQuad).debug
        = some (raycast meshQuadDisplaced rcQuad).records.length ∧
      ∃ newBVs : List Sphere,
        (raycast meshQuadDisplaced rcQuad).feature
            = some ⟨origStartsOf meshQuadDisplaced,
              some (bvolumesOf meshQuadDisplaced ++ newBVs)⟩ ∧
          newBVs.length
            = (startsOf meshQuadDisplaced).length - (bvolumesOf meshQuadDisplaced).length :=
  spec_C10 meshQuadDisplaced rcQuad (by with_unfolding_all decide)

/-! ## Claim C7 -/

theorem flatMap_congr_mem {α β : Type} (l : List α) (f f' : α → List β)
    (h : ∀ i ∈ l, f i = f' i) : l.flatMap f = l.flatMap f' := by
  induction l with
  | nil => rfl
  | cons x xs ih =>
      rw [List.flatMap_cons, List.flatMap_cons, h x (List.mem_cons_self x xs)]
      rw [ih (fun i hi => h i (List.mem_cons_of_mem x hi))]

/-- `featureIntersect` depends on its bounding sphere only through the
sphere pre-rejection gate. -/
theorem featureIntersect_congr_sphere (g : BufferGeom) (indices : List ℕ)
    (localRay : Ray) (world : Affine) (rc : Raycaster)
    (threshold localThresholdSq : ℚ) (beginIdx endIdx : ℕ) (s₁ s₂ : Sphere)
    (h : sphereGate rc world threshold s₁ = sphereGate rc world threshold s₂) :
    featureIntersect g indices localRay world rc threshold localThresholdSq
        beginIdx endIdx s₁
      = featureIntersect g indices localRay world rc threshold localThresholdSq
        beginIdx endIdx s₂ := by
  unfold featureIntersect
  rw [h]

/-- C7, amended (counterexample: `spec_C7_counterexample`): for a mesh
whose displacement range is `min = max = 0` and whose displacement source
is everywhere zero, the records produced with the displaced path enabled
equal the records produced with displacement disabled (same geometry, ray,
widths, transform and feature metadata) PROVIDED the sphere pre-rejection
gate decides every feature the same way under the range-aware (box-derived)
bounding sphere as under the plain (tight fitted) one.  Without that
proviso the two paths can genuinely differ: the box-derived sphere is
looser, so the displaced path may admit (and then hit) features the plain
path pre-rejects, as the counterexample shows. -/
theorem spec_C7 (g : BufferGeom) (indices : List ℕ) (m mPlain : Mesh) (rc : Raycaster)
    (hgeom : m.geometry = StoredGeom.buffer g)
    (hgeomP : mPlain.geometry = StoredGeom.buffer g)
    (hidx : g.index = some indices)
    (hmat : m.materialDisplacement = some (fun _ => 0))
    (hmatP : mPlain.materialDisplacement = none)
    (hrange : m.displacementRange = ⟨0, 0⟩)
    (hlw : mPlain.lineWidth = m.lineWidth)
    (how : mPlain.outlineWidth = m.outlineWidth)
    (hsc : mPlain.scale = m.scale)
    (hmw : mPlain.matrixWorld = m.matrixWorld)
    (hfeat : mPlain.feature = m.feature)
    (hgates : ∀ i < (startsOf m).length,
      sphereGate rc m.matrixWorld m.threshold
          (cachedOrComputed (bvolumesOf m) g.position indices (startsOf m)
            (g.normal 0) (some ⟨0, 0⟩) i)
        = sphereGate rc m.matrixWorld m.threshold
          (cachedOrComputed (bvolumesOf m) g.position indices (startsOf m)
            0 none i)) :
    (raycast m rc).records = (raycast mPlain rc).records := by
  have hth : Mesh.threshold mPlain = m.threshold := by
    unfold Mesh.threshold
    rw [hlw, how]
  have hlts : Mesh.localThresholdSq mPlain = m.localThresholdSq := by
    unfold Mesh.localThresholdSq Mesh.localThreshold Mesh.threshold
    rw [hlw, how, hsc]
  have hst : startsOf mPlain = startsOf m := by
    unfold startsOf origStartsOf
    rw [hfeat]
  have hbv : bvolumesOf mPlain = bvolumesOf m := by
    unfold bvolumesOf
    rw [hfeat]
  have hagD : m.activeGeom (.displacedView (fun _ => 0) m.displacementRange) = some g := by
    simp [Mesh.activeGeom, hgeom, displacedGeom_zero]
  have hagS : mPlain.activeGeom .stored = some g := by
    simp [Mesh.activeGeom, hgeomP]
  have hsuccD := raycastImplWith_success m (.displacedView (fun _ => 0) m.displacementRange)
    rc m.localThresholdSq g indices hagD hidx
  have hsuccS := raycastImplWith_success mPlain .stored rc mPlain.localThresholdSq
    g indices hagS hidx
  have hrecD : (raycast m rc).records =
      implRecords m (.displacedView (fun _ => 0) m.displacementRange) rc
        m.localThresholdSq g indices := by
    simp [raycast, hgeom, hmat, raycastImpl, hsuccD]
  have hrecS : (raycast mPlain rc).records =
      implRecords mPlain .stored rc mPlain.localThresholdSq g indices := by
    simp [raycast, hgeomP, hmatP, raycastImpl, hsuccS]
  rw [hrecD, hrecS]
  unfold implRecords
  rw [hst, hbv, hmw, hlts, hth]
  refine flatMap_congr_mem _ _ _ ?_
  intro i hi
  have hilt : i < (startsOf m).length := List.mem_range.mp hi
  have hgate := hgates i hilt
  have haR : activeRange (GeomRef.displacedView (fun _ => 0) m.displacementRange)
      = some (⟨0, 0⟩ : DisplacementRange) := by
    simp [activeRange, hrange]
  have haN : activeNormal0 g (GeomRef.displacedView (fun _ => 0) m.displacementRange)
      = g.normal 0 := rfl
  rw [haR, haN]
  exact featureIntersect_congr_sphere _ _ _ _ _ _ _ _ _ _ _ hgate

/-- C7 counterexample: the four-segment fixture has displacement range
`min = max = 0` and an everywhere-zero displacement source (so the
displaced positions equal the stored ones), yet the displaced path emits an
intersection record for the last segment while the disabled path emits
nothing: the plain path's tight fitted sphere (radius² `17/4`) inflated by
the threshold rejects the only feature, while the displaced path's
box-derived sphere (radius² `25/4`) admits it. -/
theorem spec_C7_counterexample :
    meshQuadDisplaced.displacementRange = ⟨0, 0⟩ ∧
      (raycast meshQuadDisplaced rcQuad).records
        = [{ distanceSq := 25, point := ⟨2, 77/20, 0⟩, index := 18 }] ∧
      (raycast meshQuadPlain rcQuad).records = [] ∧
      (raycast meshQuadDisplaced rcQuad).records ≠ (raycast meshQuadPlain rcQuad).records := by
  refine ⟨rfl, by with_unfolding_all decide, by with_unfolding_all decide,
    by with_unfolding_all decide⟩

/-- A displacement-capable variant of the one-segment mesh with the
everywhere-zero displacement source and zero displacement range. -/
def meshSegDisplaced : Mesh := { meshSeg with materialDisplacement := some dmapZero }

/-- C7 witness: on the one-segment fixture both bounding spheres coincide,
the gate hypothesis holds, and the displaced and plain paths produce the
same records. -/
theorem spec_C7_witness :
    (raycast meshSegDisplaced rcSeg).records = (raycast meshSeg rcSeg).records := by
  refine spec_C7 gSeg [0, 0, 1, 1, 1, 0] meshSegDisplaced meshSeg rcSeg rfl rfl rfl rfl rfl
    rfl rfl rfl rfl rfl rfl ?_
  intro i hi
  have hlen : (startsOf meshSegDisplaced).length = 1 := by with_unfolding_all decide
  rw [hlen] at hi
  interval_cases i
  with_unfolding_all decide

/-! ## Claim C3 -/

/-- The segment's start (centerline) vertex: `vStart` from
`position.fromBufferAttribute(indices[i])`. -/
def segStart (g : BufferGeom) (indices : List ℕ) (i : ℕ) : Vec3 :=
  g.position (indices.getD i 0)

/-- The segment's end vertex: `vEnd` from `indices[i + 2]`
(`indices[i + 1]` is the same vertex as `indices[i]`). -/
def segEnd (g : BufferGeom) (indices : List ℕ) (i : ℕ) : Vec3 :=
  g.position (indices.getD (i + 2) 0)

/-- The segment's extrusion direction: the bitangent at the start vertex. -/
def segExtrusion (g : BufferGeom) (indices : List ℕ) (i : ℕ) : Vec3 :=
  g.bitangent (indices.getD i 0)

/-- The local ray's intersection with the plane through `vStart`,
`vStart + vExtrusion` and `vEnd`. -/
def segPlanePoint (g : BufferGeom) (indices : List ℕ) (localRay : Ray) (i : ℕ) :
    Option Vec3 :=
  intersectPlanePts localRay (segStart g indices i)
    (segStart g indices i + segExtrusion g indices i) (segEnd g indices i)

/-- The closest point on the clamped centerline segment `[vStart, vEnd]` to
a point `p`. -/
def segClosest (g : BufferGeom) (indices : List ℕ) (i : ℕ) (p : Vec3) : Vec3 :=
  segStart g indices i +
    closestPointParam (segStart g indices i) (segEnd g indices i) p •
      (segEnd g indices i - segStart g indices i)

theorem perSegment_eq (g : BufferGeom) (indices : List ℕ) (localRay : Ray)
    (world : Affine) (rc : Raycaster) (ltsq : ℚ) (i : ℕ) :
    perSegment g indices localRay world rc ltsq i =
      match segPlanePoint g indices localRay i with
      | none => none
      | some interPlane =>
          if ltsq < distSq interPlane (segClosest g indices i interPlane) then none
          else if sqrtLt (distSq rc.ray.origin (world.applyPoint interPlane)) rc.near
              || sqrtGt (distSq rc.ray.origin (world.applyPoint interPlane)) rc.far then
            none
          else some ⟨distSq rc.ray.origin (world.applyPoint interPlane),
            world.applyPoint interPlane, i⟩ := rfl

theorem closestPointParam_nonneg (a b p : Vec3) : 0 ≤ closestPointParam a b p :=
  le_max_left _ _

theorem closestPointParam_le_one (a b p : Vec3) : closestPointParam a b p ≤ 1 :=
  max_le zero_le_one (min_le_left _ _)

/-- A plane intersection point returned by `intersectPlanePts` lies on the
ray at a nonnegative parameter. -/
theorem intersectPlanePts_param (r : Ray) (a b c p : Vec3)
    (h : intersectPlanePts r a b c = some p) : ∃ t : ℚ, 0 ≤ t ∧ p = Ray.rayAt r t := by
  have heq : intersectPlanePts r a b c =
      if dot (cross (c - b) (a - b)) r.dir = 0 then
        (if dot (cross (c - b) (a - b)) (r.origin - a) = 0 then some r.origin else none)
      else if 0 ≤ (dot (cross (c - b) (a - b)) a - dot (cross (c - b) (a - b)) r.origin)
          / dot (cross (c - b) (a - b)) r.dir then
        some (Ray.rayAt r ((dot (cross (c - b) (a - b)) a
          - dot (cross (c - b) (a - b)) r.origin) / dot (cross (c - b) (a - b)) r.dir))
      else none := rfl
  rw [heq] at h
  by_cases hd : dot (cross (c - b) (a - b)) r.dir = 0
  · rw [if_pos hd] at h
    by_cases h2 : dot (cross (c - b) (a - b)) (r.origin - a) = 0
    · rw [if_pos h2] at h
      injection h with h
      refine ⟨0, le_refl 0, ?_⟩
      rw [← h]
      unfold Ray.rayAt
      exact (Vec3.add_zero_smul _ _).symm
    · rw [if_neg h2] at h
      exact Option.noConfusion h
  · rw [if_neg hd] at h
    by_cases ht : 0 ≤ (dot (cross (c - b) (a - b)) a - dot (cross (c - b) (a - b)) r.origin)
        / dot (cross (c - b) (a - b)) r.dir
    · rw [if_pos ht] at h
      injection h with h
      exact ⟨_, ht, h.symm⟩
    · rw [if_neg ht] at h
      exact Option.noConfusion h

/-- Eliminating a successful per-segment test. -/
theorem perSegment_some_elim (g : BufferGeom) (indices : List ℕ) (localRay : Ray)
    (world : Affine) (rc : Raycaster) (ltsq : ℚ) (i : ℕ) (r : IntersectionRecord)
    (h : perSegment g indices localRay world rc ltsq i = some r) :
    ∃ p, segPlanePoint g indices localRay i = some p ∧
      distSq p (segClosest g indices i p) ≤ ltsq ∧
      sqrtLt (distSq rc.ray.origin (world.applyPoint p)) rc.near = false ∧
      sqrtGt (distSq rc.ray.origin (world.applyPoint p)) rc.far = false ∧
      r = ⟨distSq rc.ray.origin (world.applyPoint p), world.applyPoint p, i⟩ := by
  rw [perSegment_eq] at h
  cases hip : segPlanePoint g indices localRay i with
  | none => rw [hip] at h; exact Option.noConfusion h
  | some p =>
      rw [hip] at h
      dsimp only at h
      by_cases h1 : ltsq < distSq p (segClosest g indices i p)
      · rw [if_pos h1] at h
        exact Option.noConfusion h
      · rw [if_neg h1] at h
        by_cases h2 : (sqrtLt (distSq rc.ray.origin (world.applyPoint p)) rc.near
            || sqrtGt (distSq rc.ray.origin (world.applyPoint p)) rc.far) = true
        · rw [if_pos h2] at h
          exact Option.noConfusion h
        · rw [if_neg h2] at h
          injection h with h
          rw [Bool.or_eq_true] at h2
          push_neg at h2
          refine ⟨p, rfl, le_of_not_lt h1, ?_, ?_, h.symm⟩
          · exact Bool.not_eq_true _ ▸ Bool.of_not_eq_true h2.1
          · exact Bool.not_eq_true _ ▸ Bool.of_not_eq_true h2.2

/-- Introducing a successful per-segment test. -/
theorem perSegment_some_intro (g : BufferGeom) (indices : List ℕ) (localRay : Ray)
    (world : Affine) (rc : Raycaster) (ltsq : ℚ) (i : ℕ) (p : Vec3)
    (hip : segPlanePoint g indices localRay i = some p)
    (hd : distSq p (segClosest g indices i p) ≤ ltsq)
    (hn : sqrtLt (distSq rc.ray.origin (world.applyPoint p)) rc.near = false)
    (hf : sqrtGt (distSq rc.ray.origin (world.applyPoint p)) rc.far = false) :
    perSegment g indices localRay world rc ltsq i =
      some ⟨distSq rc.ray.origin (world.applyPoint p), world.applyPoint p, i⟩ := by
  rw [perSegment_eq, hip]
  dsimp only
  rw [if_neg (not_lt.mpr hd)]
  rw [if_neg (by rw [Bool.or_eq_true]; push_neg; exact ⟨by rw [hn]; exact Bool.false_ne_true,
    by rw [hf]; exact Bool.false_ne_true⟩)]

theorem sqrtLt_eq_false_iff (d2 a : ℚ) :
    sqrtLt d2 a = false ↔ (a : ℝ) ≤ Real.sqrt ((d2 : ℚ) : ℝ) := by
  constructor
  · intro h
    by_contra hc
    push_neg at hc
    have := (sqrtLt_iff_real d2 a).mpr hc
    rw [h] at this
    exact Bool.noConfusion this
  · intro h
    cases hb : sqrtLt d2 a with
    | false => rfl
    | true =>
        exfalso
        exact absurd ((sqrtLt_iff_real d2 a).mp hb) (not_lt.mpr h)

theorem sqrtGt_eq_false_iff (d2 a : ℚ) :
    sqrtGt d2 a = false ↔ Real.sqrt ((d2 : ℚ) : ℝ) ≤ (a : ℝ) := by
  constructor
  · intro h
    by_contra hc
    push_neg at hc
    have := (sqrtGt_iff_real d2 a).mpr hc
    rw [h] at this
    exact Bool.noConfusion this
  · intro h
    cases hb : sqrtGt d2 a with
    | false => rfl
    | true =>
        exfalso
        exact absurd ((sqrtGt_iff_real d2 a).mp hb) (not_lt.mpr h)

/-- C3, confirmed: for a segment (stride 6, start `indices[i]`, end
`indices[i + 2]`) of a feature that passed the sphere pre-rejection test,
an intersection record is emitted if and only if the local ray intersects
the plane through `vStart`, `vStart + vExtrusion`, `vEnd`; the squared
distance from the plane point to the closest point on the clamped segment
does not exceed the squared local threshold; and the world-space distance
from the ray origin to the intersection point lies within `[near, far]`.
Any emitted record with this segment index carries exactly the squared
world distance, the world-space plane point and the segment start index.
In particular (last conjunct), a ray whose closest approach to the
segment's clamped centerline exceeds the local threshold never produces a
record for this segment. -/
theorem spec_C3 (g : BufferGeom) (indices : List ℕ) (localRay : Ray) (world : Affine)
    (rc : Raycaster) (threshold ltsq : ℚ) (beginIdx endIdx : ℕ) (bSphere : Sphere)
    (i : ℕ) (hi : i ∈ strideIdxs beginIdx endIdx)
    (hgate : sphereGate rc world threshold bSphere = true) :
    ((∃ r ∈ featureIntersect g indices localRay world rc threshold ltsq
          beginIdx endIdx bSphere, r.index = i) ↔
        ∃ p, segPlanePoint g indices localRay i = some p ∧
          distSq p (segClosest g indices i p) ≤ ltsq ∧
          (rc.near : ℝ) ≤ Real.sqrt ((distSq rc.ray.origin (world.applyPoint p) : ℚ) : ℝ) ∧
          Real.sqrt ((distSq rc.ray.origin (world.applyPoint p) : ℚ) : ℝ) ≤ (rc.far : ℝ)) ∧
      (∀ r ∈ featureIntersect g indices localRay world rc threshold ltsq
          beginIdx endIdx bSphere, r.index = i →
        ∃ p, segPlanePoint g indices localRay i = some p ∧
          r = ⟨distSq rc.ray.origin (world.applyPoint p), world.applyPoint p, i⟩) ∧
      ((∀ s : ℚ, 0 ≤ s → s ≤ 1 → ∀ u : ℚ, 0 ≤ u →
          ltsq < distSq (Ray.rayAt localRay u)
            (segStart g indices i + s • (segEnd g indices i - segStart g indices i))) →
        ∀ r ∈ featureIntersect g indices localRay world rc threshold ltsq
          beginIdx endIdx bSphere, r.index ≠ i) := by
  have hout : featureIntersect g indices localRay world rc threshold ltsq
      beginIdx endIdx bSphere
      = (strideIdxs beginIdx endIdx).filterMap (perSegment g indices localRay world rc ltsq) := by
    unfold featureIntersect
    rw [hgate]
    simp
  refine ⟨⟨?_, ?_⟩, ?_, ?_⟩
  · rintro ⟨r, hr, hri⟩
    rw [hout] at hr
    obtain ⟨j, hj, hpj⟩ := List.mem_filterMap.mp hr
    obtain ⟨p, hip, hd, hn, hf, hrec⟩ := perSegment_some_elim _ _ _ _ _ _ _ _ hpj
    have hji : j = i := by rw [hrec] at hri; exact hri
    subst hji
    exact ⟨p, hip, hd, (sqrtLt_eq_false_iff _ _).mp hn, (sqrtGt_eq_false_iff _ _).mp hf⟩
  · rintro ⟨p, hip, hd, hnear, hfar⟩
    refine ⟨⟨distSq rc.ray.origin (world.applyPoint p), world.applyPoint p, i⟩, ?_, rfl⟩
    rw [hout]
    refine List.mem_filterMap.mpr ⟨i, hi, ?_⟩
    exact perSegment_some_intro g indices localRay world rc ltsq i p hip hd
      ((sqrtLt_eq_false_iff _ _).mpr hnear) ((sqrtGt_eq_false_iff _ _).mpr hfar)
  · intro r hr hri
    rw [hout] at hr
    obtain ⟨j, hj, hpj⟩ := List.mem_filterMap.mp hr
    obtain ⟨p, hip, hd, hn, hf, hrec⟩ := perSegment_some_elim _ _ _ _ _ _ _ _ hpj
    have hji : j = i := by rw [hrec] at hri; exact hri
    subst hji
    exact ⟨p, hip, hrec⟩
  · intro hmiss r hr hri
    rw [hout] at hr
    obtain ⟨j, hj, hpj⟩ := List.mem_filterMap.mp hr
    obtain ⟨p, hip, hd, hn, hf, hrec⟩ := perSegment_some_elim _ _ _ _ _ _ _ _ hpj
    have hji : j = i := by rw [hrec] at hri; exact hri
    subst hji
    obtain ⟨t, ht, hpt⟩ := intersectPlanePts_param localRay (segStart g indices j)
      (segStart g indices j + segExtrusion g indices j) (segEnd g indices j) p hip
    have hcontra := hmiss (closestPointParam (segStart g indices j) (segEnd g indices j) p)
      (closestPointParam_nonneg _ _ _) (closestPointParam_le_one _ _ _) t ht
    rw [← hpt] at hcontra
    exact absurd hd (not_le.mpr hcontra)

/-- C3 witness: on the one-segment fixture with a passing sphere gate, the
conditions hold at the plane point `(1/20, 1/20, 0)` and a record with the
segment's start index is emitted. -/
theorem spec_C3_witness :
    ∃ r ∈ featureIntersect gSeg [0, 0, 1, 1, 1, 0] rcSeg.ray Affine.identityAffine rcSeg
      (1/10) (1/100) 0 6 ⟨⟨0, 0, 0⟩, 0⟩, r.index = 0 := by
  refine (spec_C3 gSeg [0, 0, 1, 1, 1, 0] rcSeg.ray Affine.identityAffine rcSeg
    (1/10) (1/100) 0 6 ⟨⟨0, 0, 0⟩, 0⟩ 0
    (by with_unfolding_all decide) (by with_unfolding_all decide)).1.mpr ?_
  refine ⟨⟨1/20, 1/20, 0⟩, by with_unfolding_all decide, by with_unfolding_all decide, ?_, ?_⟩
  · have h9 : distSq rcSeg.ray.origin (Affine.identityAffine.applyPoint ⟨1/20, 1/20, 0⟩)
        = 9 := by with_unfolding_all decide
    rw [h9]
    have h0 : rcSeg.near = 0 := rfl
    rw [h0]
    push_cast
    exact Real.sqrt_nonneg _
  · have h9 : distSq rcSeg.ray.origin (Affine.identityAffine.applyPoint ⟨1/20, 1/20, 0⟩)
        = 9 := by with_unfolding_all decide
    rw [h9]
    exact (sqrtGt_eq_false_iff 9 rcSeg.far).mp (by with_unfolding_all decide)
